import Mathlib

/-!
Verification of the prompt-library data layer (`app.py`).

This file is a shallow embedding of the data model and the persistence,
query, tag-directory and import/export code of the repository, together
with theorems settling the frozen claims C1..C10.

Modelling conventions:
* SQLite relations become Lean lists of rows; the `AUTOINCREMENT` tag id
  counter is carried explicitly as `nextTagId`.
* Python dicts (`tags` maps, `TAG_CATEGORIES`) become association lists
  `List (String × _)` preserving insertion order, which is exactly the
  iteration order of a Python dict.
* `datetime.utcnow()` and `uuid.uuid4()` are nondeterministic inputs of
  the program; they become explicit parameters (`now : String`, fresh-id
  supplies).
* A SQL statement that can raise (`INSERT` hitting a PRIMARY KEY
  constraint) is modelled in `Except`; `get_db_connection` commits on
  success and rolls back on an exception, so a repository call either
  returns an updated database or leaves the database unchanged and
  propagates the error.
* `json.dumps` / `json.loads` are the Python standard library, not code
  of this repository.  The transport text is therefore represented by its
  parse result: an export is the `Json` tree that `json.dumps` would
  print, and an import consumes `Except String Json`, the outcome of
  `json.loads` on the input text (`.error` for structurally invalid text).
-/

/-- Python/SQLite string comparison: strict lexicographic order on code
points (UTF-8 byte order and code-point order agree). -/
def strLtCh : List Char → List Char → Bool
  | [], [] => false
  | [], _ :: _ => true
  | _ :: _, [] => false
  | a :: as, b :: bs => if a < b then true else if b < a then false else strLtCh as bs

/-- `a ≤ b` on strings, by code points. -/
def strLe (a b : String) : Bool := !(strLtCh b.data a.data)

/-- The sort key ordering used to model `list.sort()` / `ORDER BY`. -/
def strLeR (a b : String) : Prop := strLe a b = true

instance : DecidableRel strLeR := fun a b => by unfold strLeR; infer_instance

/-- The `Prompt` dataclass of `app.py` (all sixteen fields, with the
dataclass defaults).  `tags` is the category → values dict, kept as an
insertion-ordered association list. -/
structure Prompt where
  id : String
  title : String
  prompt_type : String := "structured"
  use_case : String := ""
  description : String := ""
  usage_notes : String := ""
  version : String := "v1.0"
  persona : String := ""
  context : String := ""
  task : String := ""
  style : String := ""
  «variables» : String := ""
  instructions : String := ""
  is_favorite : Int := 0
  created_at : String := ""
  last_modified : String := ""
  tags : List (String × List String) := []
deriving Repr, DecidableEq

/-- `Prompt.get_copy_text` from `app.py`: standard prompts return
`instructions` (`or ""` is the identity here since the field is a
string); structured prompts accumulate a `parts` list over the five
content fields, guarded by Python truthiness (non-emptiness), and join
with the fixed separator. -/
def Prompt.get_copy_text (p : Prompt) : String :=
  if p.prompt_type == "standard" then p.instructions
  else
    let parts : List String := []
    let parts := if p.persona ≠ "" then parts ++ ["### PERSONA\n" ++ p.persona] else parts
    let parts := if p.context ≠ "" then parts ++ ["### CONTEXT\n" ++ p.context] else parts
    let parts := if p.task ≠ "" then parts ++ ["### TASK\n" ++ p.task] else parts
    let parts := if p.style ≠ "" then parts ++ ["### STYLE\n" ++ p.style] else parts
    let parts := if p.«variables» ≠ "" then parts ++ ["### VARIABLES\n" ++ p.«variables»] else parts
    String.intercalate "\n\n---\n\n" parts

/-- Spec-side reading of the structured rendering (claim C2): the five
`(header, field)` sections in their fixed order. -/
def Prompt.sectionList (p : Prompt) : List (String × String) :=
  [("### PERSONA\n", p.persona), ("### CONTEXT\n", p.context),
   ("### TASK\n", p.task), ("### STYLE\n", p.style), ("### VARIABLES\n", p.«variables»)]

/-- Spec-side reading of the structured rendering: keep exactly the
non-empty fields, prefix each by its header, join with the separator. -/
def Prompt.structuredSpecText (p : Prompt) : String :=
  String.intercalate "\n\n---\n\n"
    (((p.sectionList).filter (fun s => s.2 ≠ "")).map (fun s => s.1 ++ s.2))

/-- A row of the `tags` table: surrogate integer id plus the
`UNIQUE(name, category)` payload. -/
structure TagRow where
  id : Nat
  name : String
  category : String
deriving Repr, DecidableEq

/-- The SQLite database state: the three relations of `init_db` plus the
`AUTOINCREMENT` counter for `tags.id`.  Rows of `prompts` are `Prompt`
values whose `tags` field is unused (the table has no tags column); the
repository fills `tags` from the join on load. -/
structure DB where
  prompts : List Prompt
  tags : List TagRow
  prompt_tags : List (String × Nat)
  nextTagId : Nat
deriving Repr, DecidableEq

def emptyDB : DB := ⟨[], [], [], 1⟩

/-- One step of the Python dict building loop in `get_by_id`/`get_all`:
append `name` under `category`, creating the key at the end on first
sight (Python dict insertion order). -/
def tagMapAppend : List (String × List String) → String → String → List (String × List String)
  | [], c, n => [(c, [n])]
  | (c', ns) :: rest, c, n =>
      if c' == c then (c', ns ++ [n]) :: rest else (c', ns) :: tagMapAppend rest c n

/-- The dict built by folding `tagMapAppend` over a `(category, name)`
row sequence, starting from `{}`. -/
def buildTagMap (l : List (String × String)) : List (String × List String) :=
  l.foldl (fun m cn => tagMapAppend m cn.1 cn.2) []

/-- The join `SELECT t.name, t.category FROM tags t JOIN prompt_tags pt
ON t.id = pt.tag_id WHERE pt.prompt_id = ?`, as the `(category, name)`
row sequence it yields: association rows of the prompt in table order,
each resolved through the tag id (a dangling id yields no join row). -/
def loadTagPairs (db : DB) (pid : String) : List (String × String) :=
  (db.prompt_tags.filter (fun pt => pt.1 == pid)).filterMap
    (fun pt => (db.tags.find? (fun t => t.id == pt.2)).map (fun t => (t.category, t.name)))

/-- The tags dict the repository attaches to a loaded prompt. -/
def loadTags (db : DB) (pid : String) : List (String × List String) :=
  buildTagMap (loadTagPairs db pid)

namespace PromptRepository

/-- `PromptRepository.get_by_id`: `SELECT * FROM prompts WHERE id = ?`
(first matching row), then attach the tags dict. -/
def get_by_id (db : DB) (prompt_id : String) : Option Prompt :=
  (db.prompts.find? (fun row => row.id == prompt_id)).map
    (fun row => { row with tags := loadTags db row.id })

/-- `PromptRepository.get_all`: `SELECT * FROM prompts ORDER BY title`
(stable, code-point collation), then attach each prompt's tags dict. -/
def get_all (db : DB) : List Prompt :=
  (List.insertionSort (fun a b => strLeR a.title b.title) db.prompts).map
    (fun row => { row with tags := loadTags db row.id })

/-- `INSERT OR IGNORE INTO tags (name, category)` followed by
`SELECT id FROM tags WHERE name = ? AND category = ?`: returns the
(possibly extended) database and the id of the `(name, category)` row. -/
def ensureTag (db : DB) (name category : String) : DB × Nat :=
  match db.tags.find? (fun t => t.name == name && t.category == category) with
  | some t => (db, t.id)
  | none =>
      ({ db with tags := db.tags ++ [⟨db.nextTagId, name, category⟩],
                 nextTagId := db.nextTagId + 1 }, db.nextTagId)

/-- `INSERT INTO prompt_tags (prompt_id, tag_id) VALUES (?, ?)`: raises
on the `PRIMARY KEY (prompt_id, tag_id)` constraint. -/
def insertPromptTag (db : DB) (pid : String) (tid : Nat) : Except String DB :=
  if (pid, tid) ∈ db.prompt_tags then
    Except.error "UNIQUE constraint failed: prompt_tags.prompt_id, prompt_tags.tag_id"
  else
    Except.ok { db with prompt_tags := db.prompt_tags ++ [(pid, tid)] }

/-- The inner tag loop of `save` for one category. -/
def saveTagNames (db : DB) (pid : String) (category : String) :
    List String → Except String DB
  | [] => Except.ok db
  | n :: ns =>
      let et := ensureTag db n category
      match insertPromptTag et.1 pid et.2 with
      | Except.error e => Except.error e
      | Except.ok db2 => saveTagNames db2 pid category ns

/-- The outer tag loop of `save` over `tags_data.items()`. -/
def saveTagsData (db : DB) (pid : String) :
    List (String × List String) → Except String DB
  | [] => Except.ok db
  | (c, ns) :: rest =>
      match saveTagNames db pid c ns with
      | Except.error e => Except.error e
      | Except.ok db1 => saveTagsData db1 pid rest

/-- The row written by the `UPDATE` branch of `save`: every content
field from the call, `last_modified = now`; `id`, `is_favorite`,
`created_at` are not in the `SET` list.  (The stored row's `tags` field
is the unused column placeholder and stays `[]`-irrelevant.) -/
def updateRow (old : Prompt) (p : Prompt) (now : String) : Prompt :=
  { old with
      title := p.title, use_case := p.use_case, description := p.description,
      usage_notes := p.usage_notes, version := p.version, persona := p.persona,
      context := p.context, task := p.task, style := p.style,
      «variables» := p.«variables», prompt_type := p.prompt_type,
      instructions := p.instructions, last_modified := now }

/-- The row written by the `INSERT` branch of `save`: all content fields
from the call, `is_favorite = 0`, `created_at = last_modified = now`. -/
def insertRow (p : Prompt) (now : String) : Prompt :=
  { p with is_favorite := 0, created_at := now, last_modified := now, tags := [] }

/-- `PromptRepository.save`: upsert the prompt row, then
`DELETE FROM prompt_tags WHERE prompt_id = ?` and reinsert one
association per `(category, value)` pair of `tags_data`, creating
missing tag rows.  Runs in one transaction: an error means the caller's
connection rolls everything back. -/
def save (db : DB) (p : Prompt) (tags_data : List (String × List String))
    (now : String) : Except String DB :=
  let db1 :=
    if (db.prompts.find? (fun row => row.id == p.id)).isSome then
      { db with prompts :=
          db.prompts.map (fun row => if row.id == p.id then updateRow row p now else row) }
    else
      { db with prompts := db.prompts ++ [insertRow p now] }
  let db2 := { db1 with prompt_tags := db1.prompt_tags.filter (fun pt => pt.1 != p.id) }
  saveTagsData db2 p.id tags_data

/-- The database state after a `save` call returns or raises: commit on
success, rollback (state unchanged) on error. -/
def saveRun (db : DB) (p : Prompt) (tags_data : List (String × List String))
    (now : String) : DB :=
  match save db p tags_data now with
  | Except.ok db' => db'
  | Except.error _ => db

/-- `PromptRepository.delete`: two unconditional `DELETE`s (associations
first, then the row); always returns `True`, present or not. -/
def delete (db : DB) (prompt_id : String) : DB × Bool :=
  ({ db with
      prompt_tags := db.prompt_tags.filter (fun pt => pt.1 != prompt_id),
      prompts := db.prompts.filter (fun row => row.id != prompt_id) },
   true)

/-- `PromptRepository.toggle_favorite`: `UPDATE prompts SET is_favorite
= ? WHERE id = ?` with `0 if current_status else 1`. -/
def toggle_favorite (db : DB) (prompt_id : String) (current_status : Int) : DB :=
  let new_status : Int := if current_status ≠ 0 then 0 else 1
  let rows := db.prompts.map
    (fun row => if row.id == prompt_id then { row with is_favorite := new_status } else row)
  { db with prompts := rows }

/-- `PromptRepository.duplicate`: load the source with its tags, rewrite
id/title/timestamps/favorite, and route through `save` (state as left
after the `save` call commits or rolls back). -/
def duplicate (db : DB) (prompt_id : String) (new_id : String) (now : String) :
    DB × Option String :=
  match get_by_id db prompt_id with
  | none => (db, none)
  | some original =>
      let p := { original with
                   id := new_id, title := original.title ++ " (Copy)",
                   created_at := "", last_modified := "", is_favorite := 0 }
      (saveRun db p p.tags now, some new_id)

end PromptRepository
/-- The static taxonomy registry `TAG_CATEGORIES` of `app.py`, an
insertion-ordered dict from category name to its canonical value list
(`Complexity` is hand-ordered basic→expert; the rest are authored
alphabetically). -/
def TAG_CATEGORIES : List (String × List String) := [
  ("Abstraction Level",
    ["framework", "meta-prompt", "ready-to-use", "snippet", "template"]),
  ("Complexity",
    ["basic", "simple", "intermediate", "advanced", "expert"]),
  ("Language",
    ["de-DE", "en-GB", "en-US", "es-ES", "fr-FR", "nb-NO", "sv-SE"]),
  ("Task Type",
    ["analysis", "automation", "brainstorming", "classification", "code-generation",
     "comparison", "conversation", "data-extraction", "debugging", "decision-support",
     "documentation", "editing", "evaluation", "explanation", "generation", "planning",
     "question-answering", "reasoning", "refactoring", "research", "summarization",
     "transformation", "translation", "validation", "writing"]),
  ("Domain",
    ["agriculture", "business", "creative", "education", "engineering", "finance",
     "healthcare", "legal", "manufacturing", "marketing", "media", "non-profit",
     "real-estate", "retail", "sales", "science", "security", "software", "technology",
     "telecommunications"]),
  ("Function",
    ["administration", "business-development", "communications", "consulting",
     "customer-support", "data-analysis", "design", "devops", "executive",
     "finance-accounting", "hr", "it-operations", "legal-compliance", "operations",
     "product-management", "project-management", "quality-assurance",
     "research-development", "sales-marketing", "strategy", "training"]),
  ("Use Case",
    ["career-development", "code-review", "content-creation", "cover-letter",
     "crm-management", "data-pipeline", "email-drafting", "interview-prep",
     "job-application", "knowledge-management", "learning", "meeting-notes",
     "networking", "onboarding", "personal-assistant", "presentation",
     "process-automation", "proposal-writing", "report-generation", "resume-cv",
     "seo-optimization", "social-media", "system-design", "team-collaboration",
     "technical-writing", "time-management", "troubleshooting", "workflow-automation"]),
  ("Prompt Technique",
    ["chain-of-draft", "chain-of-thought", "constrained-generation", "context-stuffing",
     "fabric-pattern", "few-shot", "instruction-following", "iterative-refinement",
     "least-to-most", "mega-prompt", "meta-prompting", "multi-agent", "persona-based",
     "RAG", "ReAct", "reflexion", "role-prompting", "self-consistency", "self-critique",
     "self-refinement", "tree-of-thought", "zero-shot"]),
  ("Prompt Structure",
    ["atomic", "conditional", "conversational", "fabric-pattern", "hierarchical",
     "modular", "nate-prompt", "sequential", "system-user-assistant", "template-based"]),
  ("Input Type",
    ["audio", "code", "conversation-history", "document", "form-data", "image",
     "structured-data", "text", "url", "video"]),
  ("Content Source",
    ["API", "blog", "book", "code-repository", "database", "documentation", "email",
     "general-knowledge", "news-article", "PDF", "podcast", "research-paper",
     "RSS-feed", "social-media", "spreadsheet", "transcript", "webpage", "wiki",
     "YouTube"]),
  ("Output Format",
    ["bullet-list", "checklist", "code", "CSV", "diagram", "email", "HTML", "JSON",
     "JSONL", "markdown", "numbered-list", "plain-text", "report", "slides",
     "structured-plan", "table", "XML", "YAML"]),
  ("Tone",
    ["assertive", "casual", "confident", "constructive", "diplomatic", "direct",
     "empathetic", "encouraging", "enthusiastic", "formal", "friendly", "humorous",
     "inquisitive", "neutral", "persuasive", "professional", "supportive", "technical",
     "witty"]),
  ("Audience",
    ["beginner", "child", "colleague", "customer", "developer", "executive", "expert",
     "general-public", "investor", "manager", "non-technical", "recruiter", "student",
     "technical"]),
  ("Model Family",
    ["Claude", "DeepSeek", "Gemini", "GLM", "GPT", "Grok", "Kimi", "Llama", "Mistral",
     "Qwen", "Stable-Diffusion"]),
  ("Model",
    ["Claude 3 Haiku", "Claude 3 Opus", "Claude 3 Sonnet", "Claude 3.5 Haiku",
     "Claude 3.5 Sonnet", "Claude 4 Opus", "Claude 4 Sonnet", "Claude 4.5 Haiku",
     "Claude 4.5 Opus", "Claude 4.5 Sonnet", "DeepSeek-R1", "DeepSeek-V3",
     "Gemini 2.0 Flash", "Gemini 2.5 Flash", "Gemini 2.5 Pro", "GLM-4", "GLM-4V",
     "GPT-3.5 Turbo", "GPT-4", "GPT-4 Turbo", "GPT-4.1", "GPT-4.1 mini", "GPT-4o",
     "GPT-4o mini", "GPT-o1", "GPT-o1 mini", "GPT-o3", "GPT-o3 mini", "GPT-o4 mini",
     "Grok-2", "Grok-3", "Kimi K2", "Llama 3.1", "Llama 3.2", "Llama 3.3",
     "Llama 4 Maverick", "Llama 4 Scout", "Mistral Large", "Mistral Medium",
     "Mistral Small", "Model-Agnostic", "Qwen 2.5", "Qwen 3", "Stable Diffusion 3.5",
     "Stable Diffusion XL"]),
  ("Platform",
    ["Anthropic API", "AWS Bedrock", "Azure OpenAI", "Google AI Studio",
     "Google Vertex AI", "Groq", "Hugging Face", "LangChain", "LlamaIndex",
     "NotebookLM", "Ollama", "OpenAI API", "OpenRouter", "Perplexity", "Replicate",
     "Together AI"]),
  ("Safety & Guardrails",
    ["bias-mitigation", "content-filtering", "ethical-guardrails", "factual-grounding",
     "hallucination-prevention", "jailbreak-prevention", "output-validation",
     "pii-protection", "prompt-injection-defense", "rate-limiting", "source-citation",
     "toxicity-filtering", "uncertainty-flagging"]),
  ("Quality Attributes",
    ["accuracy", "actionable", "clarity", "completeness", "conciseness", "consistency",
     "creativity", "depth", "objectivity", "originality", "relevance",
     "reproducibility", "specificity", "structured"]),
  ("Status",
    ["archived", "deprecated", "draft", "experimental", "production", "review",
     "stable", "testing"])
]

/-- `REQUIRED_TAGS` from `app.py` (advisory, not enforced by the store). -/
def REQUIRED_TAGS : List String := ["Task Type", "Complexity", "Abstraction Level"]

/-- `SINGLE_VALUE_CATEGORIES` from `app.py` (advisory, not enforced). -/
def SINGLE_VALUE_CATEGORIES : List String := ["Complexity", "Abstraction Level", "Status"]

/-- One step of the merge loop of `get_all_tags_by_category`:
`if category in categorized_tags and name not in categorized_tags[category]:
append` — an unknown category is a no-op, a known one gets the name
appended once. -/
def appendKnownTag : List (String × List String) → String → String → List (String × List String)
  | [], _, _ => []
  | (c', ns) :: rest, c, n =>
      if c' == c then
        (if ns.contains n then (c', ns) :: rest else (c', ns ++ [n]) :: rest)
      else
        (c', ns) :: appendKnownTag rest c n

/-- `get_all_tags_by_category` from `app.py`: copy the static registry,
fold in the stored tag rows (`SELECT name, category FROM tags ORDER BY
name`), then sort every per-category list except `Complexity`. -/
def get_all_tags_by_category (db : DB) : List (String × List String) :=
  let categorized_tags := TAG_CATEGORIES
  let db_tags := List.insertionSort (fun a b => strLeR a.name b.name) db.tags
  let merged := db_tags.foldl (fun m t => appendKnownTag m t.category t.name) categorized_tags
  merged.map (fun cl => if cl.1 == "Complexity" then cl else (cl.1, List.insertionSort strLeR cl.2))

/-- Python `p.tags.get(category, [])`. -/
def tagsGet (m : List (String × List String)) (c : String) : List String :=
  match m.lookup c with
  | some l => l
  | none => []

/-- The tag-filter stage of `render_library_page`: for each selected
category with a non-empty value list, keep the prompts `p` with
`p.tags and set(tags).issubset(set(p.tags.get(category, [])))`. -/
def tagFilterStage (selected : List (String × List String)) (prompts : List Prompt) :
    List Prompt :=
  selected.foldl
    (fun acc ct =>
      if ct.2 ≠ [] then
        acc.filter (fun p => (!p.tags.isEmpty) && ct.2.all (fun v => (tagsGet p.tags ct.1).contains v))
      else acc)
    prompts

/-- The JSON transport values produced by `json.dumps` and consumed by
`json.loads` (objects are post-parse Python dicts: insertion-ordered,
unique keys). -/
inductive Json where
  | null : Json
  | bool : Bool → Json
  | num : Int → Json
  | str : String → Json
  | arr : List Json → Json
  | obj : List (String × Json) → Json

/-- The `tags` dict of `Prompt.to_dict` as a JSON object. -/
def tagsToJson (m : List (String × List String)) : Json :=
  Json.obj (m.map (fun cl => (cl.1, Json.arr (cl.2.map Json.str))))

/-- `Prompt.to_dict` (dataclasses `asdict`): every field, in dataclass
declaration order. -/
def promptToJson (p : Prompt) : Json :=
  Json.obj
    [("id", Json.str p.id), ("title", Json.str p.title),
     ("prompt_type", Json.str p.prompt_type), ("use_case", Json.str p.use_case),
     ("description", Json.str p.description), ("usage_notes", Json.str p.usage_notes),
     ("version", Json.str p.version), ("persona", Json.str p.persona),
     ("context", Json.str p.context), ("task", Json.str p.task),
     ("style", Json.str p.style), ("variables", Json.str p.«variables»),
     ("instructions", Json.str p.instructions), ("is_favorite", Json.num p.is_favorite),
     ("created_at", Json.str p.created_at), ("last_modified", Json.str p.last_modified),
     ("tags", tagsToJson p.tags)]

/-- `PromptRepository.export_all`: the JSON array (one object per prompt
of `get_all`) that `json.dumps` serializes. -/
def export_all (db : DB) : Json :=
  Json.arr ((PromptRepository.get_all db).map promptToJson)

/-- The popped `tags` value of an import item, read back as a category →
values dict.  The embedding's dict is typed `String → List String`, so a
`tags` value outside that shape is modelled as a failing import item (the
Python pipeline would push such values into `save`'s tag loop, where no
claim exercises them). -/
def decodeTags : Json → Except String (List (String × List String))
  | Json.obj fields =>
      fields.foldr
        (fun cv acc => do
          let rest ← acc
          match cv.2 with
          | Json.arr vs => do
              let names ← vs.foldr
                (fun v acc2 => do
                  let ns ← acc2
                  match v with
                  | Json.str s => Except.ok (s :: ns)
                  | _ => Except.error "tag value is not a string")
                (Except.ok [])
              Except.ok ((cv.1, names) :: rest)
          | _ => Except.error "tag category value is not a list")
        (Except.ok [])
  | _ => Except.error "tags is not an object"

/-- A string field read by `Prompt.from_dict`: absent means the
dataclass default; the embedding's fields are typed strings, so a
non-string JSON value at a string field is modelled as a failing item. -/
def getStrField (fields : List (String × Json)) (k : String) (dflt : String) :
    Except String String :=
  match fields.lookup k with
  | none => Except.ok dflt
  | some (Json.str s) => Except.ok s
  | some _ => Except.error ("unsupported value for field " ++ k)

/-- One import item: `item.pop('tags', {})`, `item['id'] = uuid4()`,
`Prompt.from_dict(item)` (unknown keys dropped, missing keys defaulted,
`title` required).  A non-object item raises (`pop` on a non-dict). -/
def decodeItem (item : Json) (fresh_id : String) :
    Except String (Prompt × List (String × List String)) :=
  match item with
  | Json.obj fields => do
      let tags ← match fields.lookup "tags" with
        | none => Except.ok []
        | some t => decodeTags t
      let title ← match fields.lookup "title" with
        | some (Json.str s) => Except.ok s
        | some _ => Except.error "unsupported value for field title"
        | none => Except.error "missing required field title"
      let prompt_type ← getStrField fields "prompt_type" "structured"
      let use_case ← getStrField fields "use_case" ""
      let description ← getStrField fields "description" ""
      let usage_notes ← getStrField fields "usage_notes" ""
      let version ← getStrField fields "version" "v1.0"
      let persona ← getStrField fields "persona" ""
      let context ← getStrField fields "context" ""
      let task ← getStrField fields "task" ""
      let style ← getStrField fields "style" ""
      let vars ← getStrField fields "variables" ""
      let instructions ← getStrField fields "instructions" ""
      let is_favorite ← match fields.lookup "is_favorite" with
        | none => Except.ok (0 : Int)
        | some (Json.num n) => Except.ok n
        | some _ => Except.error "unsupported value for field is_favorite"
      let created_at ← getStrField fields "created_at" ""
      let last_modified ← getStrField fields "last_modified" ""
      Except.ok
        ({ id := fresh_id, title := title, prompt_type := prompt_type,
           use_case := use_case, description := description,
           usage_notes := usage_notes, version := version, persona := persona,
           context := context, task := task, style := style,
           «variables» := vars, instructions := instructions,
           is_favorite := is_favorite, created_at := created_at,
           last_modified := last_modified, tags := tags }, tags)
  | _ => Except.error "import item is not an object"

/-- The import loop: decode an item, give it the next fresh id, route it
through `save` (each `save` is its own committed transaction), count the
successes; a failure stops the loop, keeping the writes already
committed. -/
def importItems (db : DB) (items : List Json) (freshIds : Nat → String) (k : Nat)
    (now : String) (count : Nat) : DB × Except String Nat :=
  match items with
  | [] => (db, Except.ok count)
  | item :: rest =>
      match decodeItem item (freshIds k) with
      | Except.error e => (db, Except.error e)
      | Except.ok pt =>
          match PromptRepository.save db pt.1 pt.2 now with
          | Except.error e => (db, Except.error e)
          | Except.ok db' => importItems db' rest freshIds (k + 1) now (count + 1)

/-- `PromptRepository.import_from_json`: `json.loads` first (its outcome
is the `parsed` argument; `.error` is a structurally invalid document,
raised before any write), then `for item in data` over the parsed value:
a JSON array drives the import loop; iterating an empty object or empty
string yields no items (count 0); any other non-array raises with no
writes. -/
def import_from_json (db : DB) (parsed : Except String Json) (freshIds : Nat → String)
    (now : String) : DB × Except String Nat :=
  match parsed with
  | Except.error e => (db, Except.error e)
  | Except.ok (Json.arr items) => importItems db items freshIds 0 now 0
  | Except.ok (Json.obj fields) =>
      if fields.isEmpty then (db, Except.ok 0)
      else (db, Except.error "import item is not an object")
  | Except.ok (Json.str s) =>
      if s.isEmpty then (db, Except.ok 0)
      else (db, Except.error "import item is not an object")
  | Except.ok _ => (db, Except.error "parsed document is not iterable")

/-- Well-formedness of a database state, as `init_db`'s schema
guarantees it: unique prompt ids (PRIMARY KEY), unique tag ids and
unique `(name, category)` pairs (PRIMARY KEY, UNIQUE), the autoincrement
counter above every allocated id, ids in association rows below the
counter, and unique association pairs (PRIMARY KEY). -/
structure WF (db : DB) : Prop where
  promptIdsNodup : (db.prompts.map Prompt.id).Nodup
  tagIdsNodup : (db.tags.map TagRow.id).Nodup
  tagPairsNodup : (db.tags.map (fun t => (t.name, t.category))).Nodup
  tagIdsBound : ∀ t ∈ db.tags, t.id < db.nextTagId
  ptBound : ∀ pr ∈ db.prompt_tags, pr.2 < db.nextTagId
  ptNodup : db.prompt_tags.Nodup


/-- An association row `(prompt_id, tag_id)` references an existing
prompt row (the referential-integrity invariant of claim C10). -/
def assocsValid (db : DB) : Prop :=
  ∀ pr ∈ db.prompt_tags, ∃ row ∈ db.prompts, row.id = pr.1

/-- Sample data: a stored prompt row marked favorite (used to exercise
the update path of `save`). -/
def favRow : Prompt :=
  { id := "c6", title := "Original", is_favorite := 1,
    created_at := "2020-01-01 00:00:00 UTC", last_modified := "2020-01-01 00:00:00 UTC" }

/-- Sample database holding only `favRow`. -/
def favDB : DB := ⟨[favRow], [], [], 1⟩

/-- Sample call payload for an update of `favRow` that supplies
`is_favorite = 0`. -/
def overwriteP : Prompt :=
  { id := "c6", title := "New title", description := "changed", is_favorite := 0 }

/-- Sample prompt carrying tags, for the query-engine witnesses. -/
def taggedQ : Prompt :=
  { id := "q7", title := "Q", tags := [("Task Type", ["analysis", "debugging", "writing"])] }

/-- Sample database with one favorite tagged prompt, for the
export/import round trip. -/
def rtDB : DB :=
  ⟨[{ id := "a", title := "T", is_favorite := 1, task := "Summarize",
      created_at := "2020-01-01 00:00:00 UTC", last_modified := "2020-01-01 00:00:00 UTC",
      tags := [] }],
   [⟨0, "analysis", "Task Type"⟩], [("a", 0)], 1⟩

/-- The record an import produces from an exported record `p`: same
content, fresh identifier, server-reset favorite flag and timestamps. -/
def importedAs (p : Prompt) (fresh now : String) : Prompt :=
  { p with id := fresh, is_favorite := 0, created_at := now, last_modified := now }

/-- An injective fresh-id supply for import witnesses. -/
def freshSupply : Nat → String := fun n => String.mk (List.replicate (n + 1) 'b')

/-! ### Dictionary lemmas -/

/-- Flatten a tags dict back to its `(category, name)` pairs. -/
def flatPairs (m : List (String × List String)) : List (String × String) :=
  m.flatMap (fun cl => cl.2.map (fun n => (cl.1, n)))

theorem tagsGet_nil (c : String) : tagsGet [] c = [] := rfl

theorem tagsGet_tagMapAppend_same (m : List (String × List String)) (c n : String) :
    tagsGet (tagMapAppend m c n) c = tagsGet m c ++ [n] := by
  induction m with
  | nil => simp [tagMapAppend, tagsGet, List.lookup]
  | cons cl rest ih =>
      obtain ⟨c', ns⟩ := cl
      by_cases h : c' = c
      · subst h
        simp [tagMapAppend, tagsGet, List.lookup]
      · have hb : (c' == c) = false := beq_false_of_ne h
        have hb' : (c == c') = false := beq_false_of_ne (Ne.symm h)
        simp [tagMapAppend, tagsGet, List.lookup, hb, hb'] at ih ⊢
        exact ih

theorem tagsGet_tagMapAppend_ne (m : List (String × List String)) {c c' : String} (n : String)
    (h : c' ≠ c) : tagsGet (tagMapAppend m c n) c' = tagsGet m c' := by
  induction m with
  | nil => simp [tagMapAppend, tagsGet, List.lookup, beq_false_of_ne h]
  | cons cl rest ih =>
      obtain ⟨c₀, ns⟩ := cl
      by_cases h0 : c₀ = c
      · subst h0
        simp [tagMapAppend, tagsGet, List.lookup, beq_false_of_ne h]
      · by_cases h1 : c₀ = c'
        · subst h1
          simp [tagMapAppend, tagsGet, List.lookup, beq_false_of_ne h0]
        · simp [tagMapAppend, tagsGet, List.lookup, beq_false_of_ne h0,
                beq_false_of_ne (Ne.symm h1)] at ih ⊢
          exact ih

theorem mem_tagsGet_tagMapAppend (m : List (String × List String)) (c c' n v : String) :
    v ∈ tagsGet (tagMapAppend m c n) c' ↔ v ∈ tagsGet m c' ∨ (c' = c ∧ v = n) := by
  by_cases h : c' = c
  · subst h
    rw [tagsGet_tagMapAppend_same]
    simp
  · rw [tagsGet_tagMapAppend_ne m n h]
    simp [h]

theorem mem_tagsGet_foldl (L : List (String × String)) (m : List (String × List String))
    (c v : String) :
    v ∈ tagsGet (L.foldl (fun m cn => tagMapAppend m cn.1 cn.2) m) c ↔
      v ∈ tagsGet m c ∨ (c, v) ∈ L := by
  induction L generalizing m with
  | nil => simp
  | cons cn rest ih =>
      obtain ⟨c₀, n₀⟩ := cn
      simp only [List.foldl_cons, ih, mem_tagsGet_tagMapAppend, List.mem_cons]
      constructor
      · rintro ((h | ⟨rfl, rfl⟩) | h)
        · exact Or.inl h
        · exact Or.inr (Or.inl rfl)
        · exact Or.inr (Or.inr h)
      · rintro (h | h | h)
        · exact Or.inl (Or.inl h)
        · rw [Prod.mk.injEq] at h
          exact Or.inl (Or.inr ⟨h.1, h.2⟩)
        · exact Or.inr h

theorem mem_tagsGet_buildTagMap (L : List (String × String)) (c v : String) :
    v ∈ tagsGet (buildTagMap L) c ↔ (c, v) ∈ L := by
  unfold buildTagMap
  rw [mem_tagsGet_foldl]
  simp [tagsGet, List.lookup]

theorem keys_tagMapAppend (m : List (String × List String)) (c n : String) :
    (tagMapAppend m c n).map Prod.fst =
      if c ∈ m.map Prod.fst then m.map Prod.fst else m.map Prod.fst ++ [c] := by
  induction m with
  | nil => simp [tagMapAppend]
  | cons cl rest ih =>
      obtain ⟨c', ns⟩ := cl
      by_cases h : c' = c
      · subst h
        simp [tagMapAppend]
      · simp only [tagMapAppend, beq_false_of_ne h, Bool.false_eq_true, if_false,
          List.map_cons, List.mem_cons]
        rw [ih]
        by_cases hm : c ∈ rest.map Prod.fst
        · simp [hm]
        · have hne : ¬ c = c' := fun h' => h h'.symm
          simp [hm, hne]

theorem keysNodup_tagMapAppend (m : List (String × List String)) (c n : String)
    (h : (m.map Prod.fst).Nodup) : ((tagMapAppend m c n).map Prod.fst).Nodup := by
  rw [keys_tagMapAppend]
  by_cases hm : c ∈ m.map Prod.fst
  · simpa [hm]
  · simpa [hm] using List.Nodup.append h (List.nodup_singleton c)
      (by simpa using fun hc => hm hc)

theorem valsNe_tagMapAppend (m : List (String × List String)) (c n : String)
    (h : ∀ cl ∈ m, cl.2 ≠ []) : ∀ cl ∈ tagMapAppend m c n, cl.2 ≠ [] := by
  induction m with
  | nil =>
      intro cl hcl
      simp [tagMapAppend] at hcl
      subst hcl
      simp
  | cons hd rest ih =>
      obtain ⟨c', ns⟩ := hd
      intro cl hcl
      by_cases hc : c' = c
      · subst hc
        simp [tagMapAppend] at hcl
        rcases hcl with rfl | hcl
        · simp
        · exact h cl (List.mem_cons_of_mem _ hcl)
      · simp [tagMapAppend, beq_false_of_ne hc] at hcl
        rcases hcl with rfl | hcl
        · exact h (c', ns) (List.mem_cons_self _ _)
        · exact ih (fun x hx => h x (List.mem_cons_of_mem _ hx)) cl hcl

theorem keysNodup_buildTagMap_aux (L : List (String × String))
    (m : List (String × List String)) (h : (m.map Prod.fst).Nodup) :
    ((L.foldl (fun m cn => tagMapAppend m cn.1 cn.2) m).map Prod.fst).Nodup := by
  induction L generalizing m with
  | nil => simpa
  | cons cn rest ih => exact ih _ (keysNodup_tagMapAppend m cn.1 cn.2 h)

/-- The dict a load builds always has distinct category keys. -/
theorem keysNodup_buildTagMap (L : List (String × String)) :
    ((buildTagMap L).map Prod.fst).Nodup :=
  keysNodup_buildTagMap_aux L [] (by simp)

theorem valsNe_buildTagMap_aux (L : List (String × String))
    (m : List (String × List String)) (h : ∀ cl ∈ m, cl.2 ≠ []) :
    ∀ cl ∈ L.foldl (fun m cn => tagMapAppend m cn.1 cn.2) m, cl.2 ≠ [] := by
  induction L generalizing m with
  | nil => simp only [List.foldl_nil]; exact h
  | cons cn rest ih => exact ih _ (valsNe_tagMapAppend m cn.1 cn.2 h)

/-- The dict a load builds never holds an empty value list. -/
theorem valsNe_buildTagMap (L : List (String × String)) :
    ∀ cl ∈ buildTagMap L, cl.2 ≠ [] :=
  valsNe_buildTagMap_aux L [] (by simp)

theorem tagMapAppend_cons_ne (m : List (String × List String)) {c c₀ : String}
    (ns : List String) (n : String) (h : c ≠ c₀) :
    tagMapAppend ((c, ns) :: m) c₀ n = (c, ns) :: tagMapAppend m c₀ n := by
  simp [tagMapAppend, beq_false_of_ne h]

theorem foldl_tagMapAppend_singleton (ns : List String) (c : String) (ms : List String) :
    (ns.map (fun n => (c, n))).foldl (fun m cn => tagMapAppend m cn.1 cn.2) [(c, ms)] =
      [(c, ms ++ ns)] := by
  induction ns generalizing ms with
  | nil => simp
  | cons n rest ih =>
      simp only [List.map_cons, List.foldl_cons]
      rw [show tagMapAppend [(c, ms)] c n = [(c, ms ++ [n])] from by simp [tagMapAppend]]
      rw [ih]
      simp

theorem foldl_tagMapAppend_frame (L : List (String × String)) (m : List (String × List String))
    (c : String) (ns : List String) (h : ∀ p ∈ L, p.1 ≠ c) :
    L.foldl (fun m cn => tagMapAppend m cn.1 cn.2) ((c, ns) :: m) =
      (c, ns) :: L.foldl (fun m cn => tagMapAppend m cn.1 cn.2) m := by
  induction L generalizing m with
  | nil => simp
  | cons cn rest ih =>
      simp only [List.foldl_cons]
      rw [tagMapAppend_cons_ne m ns cn.2 (Ne.symm (h cn (List.mem_cons_self _ _)))]
      exact ih _ (fun p hp => h p (List.mem_cons_of_mem _ hp))

theorem flatPairs_nil : flatPairs [] = [] := rfl

theorem flatPairs_cons (c : String) (ns : List String) (m : List (String × List String)) :
    flatPairs ((c, ns) :: m) = ns.map (fun n => (c, n)) ++ flatPairs m := by
  simp [flatPairs]

theorem fst_mem_of_mem_flatPairs {p : String × String} {m : List (String × List String)}
    (h : p ∈ flatPairs m) : p.1 ∈ m.map Prod.fst := by
  simp only [flatPairs, List.mem_flatMap] at h
  obtain ⟨cl, hcl, hp⟩ := h
  simp only [List.mem_map] at hp
  obtain ⟨n, _, rfl⟩ := hp
  exact List.mem_map_of_mem Prod.fst hcl

/-- Flattening a loaded dict to pairs and rebuilding the dict is the
identity (distinct keys, no empty value lists). -/
theorem buildTagMap_flatPairs (m : List (String × List String))
    (hkeys : (m.map Prod.fst).Nodup) (hvals : ∀ cl ∈ m, cl.2 ≠ []) :
    buildTagMap (flatPairs m) = m := by
  induction m with
  | nil => rfl
  | cons cl rest ih =>
      obtain ⟨c, ns⟩ := cl
      rw [flatPairs_cons]
      unfold buildTagMap
      rw [List.foldl_append]
      have hns : ns ≠ [] := hvals (c, ns) (List.mem_cons_self _ _)
      obtain ⟨n, ns', rfl⟩ : ∃ n ns', ns = n :: ns' := by
        cases ns with
        | nil => exact absurd rfl hns
        | cons n ns' => exact ⟨n, ns', rfl⟩
      have h1 : (List.map (fun n => (c, n)) (n :: ns')).foldl
          (fun m cn => tagMapAppend m cn.1 cn.2) [] = [(c, n :: ns')] := by
        simp only [List.map_cons, List.foldl_cons]
        rw [show tagMapAppend [] c n = [(c, [n])] from rfl]
        exact foldl_tagMapAppend_singleton ns' c [n]
      rw [h1]
      have hc : c ∉ rest.map Prod.fst := by
        simp only [List.map_cons, List.nodup_cons] at hkeys
        exact hkeys.1
      rw [foldl_tagMapAppend_frame (flatPairs rest) [] c (n :: ns')
            (fun p hp h' => hc (h' ▸ fst_mem_of_mem_flatPairs hp))]
      have := ih (by simpa using hkeys.of_cons)
        (fun x hx => hvals x (List.mem_cons_of_mem _ hx))
      unfold buildTagMap at this
      rw [this]

/-! ### Code-point string order: asymmetry, transitivity, connexity -/

theorem strLtCh_asymm : ∀ as bs : List Char, strLtCh as bs = true → strLtCh bs as = false := by
  intro as
  induction as with
  | nil =>
      intro bs h
      cases bs with
      | nil => simp [strLtCh] at h
      | cons b bs => simp [strLtCh]
  | cons a as ih =>
      intro bs h
      cases bs with
      | nil => simp [strLtCh] at h
      | cons b bs =>
          simp only [strLtCh] at h ⊢
          by_cases h1 : a < b
          · simp [lt_asymm h1, h1]
          · by_cases h2 : b < a
            · simp [h1, h2] at h
            · simp only [h1, h2, if_false] at h ⊢
              exact ih bs h

theorem strLtCh_trans :
    ∀ as bs cs : List Char, strLtCh as bs = true → strLtCh bs cs = true →
      strLtCh as cs = true := by
  intro as
  induction as with
  | nil =>
      intro bs cs h1 h2
      cases bs with
      | nil => simp [strLtCh] at h1
      | cons b bs =>
          cases cs with
          | nil => simp [strLtCh] at h2
          | cons c cs => simp [strLtCh]
  | cons a as ih =>
      intro bs cs h1 h2
      cases bs with
      | nil => simp [strLtCh] at h1
      | cons b bs =>
          cases cs with
          | nil => simp [strLtCh] at h2
          | cons c cs =>
              simp only [strLtCh] at h1 h2 ⊢
              rcases lt_trichotomy a b with hab | hab | hab
              · rcases lt_trichotomy b c with hbc | hbc | hbc
                · simp [lt_trans hab hbc]
                · subst hbc
                  simp [hab]
                · simp [hbc, lt_asymm hbc] at h2
              · subst hab
                rcases lt_trichotomy a c with hac | hac | hac
                · simp [hac]
                · subst hac
                  simp [lt_irrefl a] at h1 h2 ⊢
                  exact ih bs cs h1 h2
                · simp [hac, lt_asymm hac] at h2
              · simp [hab, lt_asymm hab] at h1

theorem strLtCh_connex :
    ∀ as bs : List Char, as ≠ bs → strLtCh as bs = true ∨ strLtCh bs as = true := by
  intro as
  induction as with
  | nil =>
      intro bs h
      cases bs with
      | nil => exact absurd rfl h
      | cons b bs => left; simp [strLtCh]
  | cons a as ih =>
      intro bs h
      cases bs with
      | nil => right; simp [strLtCh]
      | cons b bs =>
          rcases lt_trichotomy a b with hab | hab | hab
          · left; simp [strLtCh, hab]
          · subst hab
            have : as ≠ bs := fun h' => h (by rw [h'])
            rcases ih bs this with h' | h'
            · left; simp [strLtCh, lt_irrefl, h']
            · right; simp [strLtCh, lt_irrefl, h']
          · right; simp [strLtCh, hab]

instance : IsTotal String strLeR := by
  constructor
  intro a b
  unfold strLeR strLe
  by_cases h1 : strLtCh b.data a.data = true
  · right
    simp [strLtCh_asymm _ _ h1]
  · left
    simp [Bool.not_eq_true] at h1
    simp [h1]

instance : IsTrans String strLeR := by
  constructor
  intro a b c h1 h2
  unfold strLeR strLe at h1 h2 ⊢
  simp only [Bool.not_eq_true', Bool.not_eq_true] at h1 h2 ⊢
  by_contra hca
  simp only [Bool.not_eq_false] at hca
  by_cases hab : a.data = b.data
  · rw [← hab] at h2
    rw [h2] at hca
    exact Bool.false_ne_true hca
  · rcases strLtCh_connex a.data b.data hab with h' | h'
    · have := strLtCh_trans _ _ _ hca h'
      rw [this] at h2
      exact Bool.noConfusion h2
    · rw [h'] at h1
      exact Bool.noConfusion h1

/-! ### Finding rows by unique ids -/

theorem find?_id_of_mem_nodup (l : List TagRow) (t : TagRow)
    (hid : (l.map TagRow.id).Nodup) (ht : t ∈ l) :
    l.find? (fun x => x.id == t.id) = some t := by
  induction l with
  | nil => cases ht
  | cons hd rest ih =>
      simp only [List.map_cons, List.nodup_cons] at hid
      rcases List.mem_cons.mp ht with rfl | ht'
      · simp [List.find?]
      · have hne : hd.id ≠ t.id := fun h => hid.1 (h ▸ List.mem_map_of_mem TagRow.id ht')
        simp only [List.find?, beq_false_of_ne hne]
        exact ih hid.2 ht'

theorem find?_append_left {α : Type} (p : α → Bool) (l l' : List α) (x : α)
    (h : l.find? p = some x) : (l ++ l').find? p = some x := by
  rw [List.find?_append, h]
  rfl

namespace PromptRepository

theorem ensureTag_prompts (db : DB) (n c : String) :
    (ensureTag db n c).1.prompts = db.prompts := by
  unfold ensureTag
  cases h : db.tags.find? (fun t => t.name == n && t.category == c) <;> simp

theorem ensureTag_prompt_tags (db : DB) (n c : String) :
    (ensureTag db n c).1.prompt_tags = db.prompt_tags := by
  unfold ensureTag
  cases h : db.tags.find? (fun t => t.name == n && t.category == c) <;> simp

theorem ensureTag_next_mono (db : DB) (n c : String) :
    db.nextTagId ≤ (ensureTag db n c).1.nextTagId := by
  unfold ensureTag
  cases h : db.tags.find? (fun t => t.name == n && t.category == c) <;> simp

theorem ensureTag_tid_lt (db : DB) (n c : String)
    (hb : ∀ t ∈ db.tags, t.id < db.nextTagId) :
    (ensureTag db n c).2 < (ensureTag db n c).1.nextTagId := by
  unfold ensureTag
  cases h : db.tags.find? (fun t => t.name == n && t.category == c) with
  | none => simp
  | some t =>
      simp only
      exact hb t (List.mem_of_find?_eq_some h)

theorem ensureTag_find (db : DB) (n c : String)
    (hid : (db.tags.map TagRow.id).Nodup) (hb : ∀ t ∈ db.tags, t.id < db.nextTagId) :
    (ensureTag db n c).1.tags.find? (fun x => x.id == (ensureTag db n c).2) =
      some ⟨(ensureTag db n c).2, n, c⟩ := by
  cases h : db.tags.find? (fun t => t.name == n && t.category == c) with
  | some t =>
      have hmem := List.mem_of_find?_eq_some h
      have hsat := List.find?_some h
      simp only [Bool.and_eq_true, beq_iff_eq] at hsat
      have : (⟨t.id, n, c⟩ : TagRow) = t := by
        cases t
        simp_all
      simp only [ensureTag, h]
      rw [this]
      exact find?_id_of_mem_nodup db.tags t hid hmem
  | none =>
      simp only [ensureTag, h]
      have hpre : db.tags.find? (fun x => x.id == db.nextTagId) = none := by
        rw [List.find?_eq_none]
        intro t ht
        exact (by simp [Nat.ne_of_lt (hb t ht)] : ¬ (t.id == db.nextTagId) = true)
      rw [List.find?_append, hpre]
      simp [List.find?]

theorem ensureTag_find_stable (db : DB) (n c : String) (tid : Nat)
    (htid : tid < db.nextTagId) :
    (ensureTag db n c).1.tags.find? (fun x => x.id == tid) =
      db.tags.find? (fun x => x.id == tid) := by
  cases h : db.tags.find? (fun t => t.name == n && t.category == c) with
  | some t => simp [ensureTag, h]
  | none =>
      simp only [ensureTag, h]
      rw [List.find?_append]
      have : ([(⟨db.nextTagId, n, c⟩ : TagRow)].find? (fun x => x.id == tid)) = none := by
        simp [List.find?, beq_false_of_ne (Nat.ne_of_gt htid)]
      rw [this, Option.or_none]

theorem ensureTag_tagIdsNodup (db : DB) (n c : String)
    (hid : (db.tags.map TagRow.id).Nodup) (hb : ∀ t ∈ db.tags, t.id < db.nextTagId) :
    ((ensureTag db n c).1.tags.map TagRow.id).Nodup := by
  cases h : db.tags.find? (fun t => t.name == n && t.category == c) with
  | some t => simpa [ensureTag, h] using hid
  | none =>
      simp only [ensureTag, h, List.map_append, List.map_cons, List.map_nil]
      refine List.Nodup.append hid (List.nodup_singleton _) ?_
      intro x hx hx'
      simp only [List.mem_singleton] at hx'
      subst hx'
      simp only [List.mem_map] at hx
      obtain ⟨t, ht, htid⟩ := hx
      exact absurd htid (Nat.ne_of_lt (hb t ht))

theorem ensureTag_tagPairsNodup (db : DB) (n c : String)
    (hp : (db.tags.map (fun t => (t.name, t.category))).Nodup) :
    ((ensureTag db n c).1.tags.map (fun t => (t.name, t.category))).Nodup := by
  cases h : db.tags.find? (fun t => t.name == n && t.category == c) with
  | some t => simpa [ensureTag, h] using hp
  | none =>
      simp only [ensureTag, h, List.map_append, List.map_cons, List.map_nil]
      refine List.Nodup.append hp (List.nodup_singleton _) ?_
      intro x hx hx'
      simp only [List.mem_singleton] at hx'
      subst hx'
      have := List.find?_eq_none.mp h
      simp only [List.mem_map] at hx
      obtain ⟨t, ht, hpair⟩ := hx
      have hnc := this t ht
      simp only [Bool.and_eq_true, beq_iff_eq, not_and] at hnc
      rw [Prod.mk.injEq] at hpair
      exact hnc hpair.1 hpair.2

theorem ensureTag_tagIdsBound (db : DB) (n c : String)
    (hb : ∀ t ∈ db.tags, t.id < db.nextTagId) :
    ∀ t ∈ (ensureTag db n c).1.tags, t.id < (ensureTag db n c).1.nextTagId := by
  cases h : db.tags.find? (fun t => t.name == n && t.category == c) with
  | some t => simpa [ensureTag, h] using hb
  | none =>
      simp only [ensureTag, h]
      intro t ht
      simp only [List.mem_append, List.mem_singleton] at ht
      rcases ht with ht | rfl
      · exact Nat.lt_succ_of_lt (hb t ht)
      · exact Nat.lt_succ_self _

theorem loadTagPairs_ensureTag (db : DB) (n c : String) (pid : String)
    (hptb : ∀ pr ∈ db.prompt_tags, pr.2 < db.nextTagId) :
    loadTagPairs (ensureTag db n c).1 pid = loadTagPairs db pid := by
  unfold loadTagPairs
  rw [ensureTag_prompt_tags]
  apply List.filterMap_congr
  intro pr hpr
  have hmem : pr ∈ db.prompt_tags := List.mem_of_mem_filter hpr
  rw [ensureTag_find_stable db n c pr.2 (hptb pr hmem)]

end PromptRepository

namespace PromptRepository

/-- One iteration of the tag loop of `save`: create-or-reuse the tag row
and insert the association.  Succeeds whenever the `(category, name)`
pair is not already associated to the prompt, appends exactly that pair
to the prompt's join rows, and leaves every other prompt's join rows and
the prompt rows untouched. -/
theorem saveTagStep_spec (db : DB) (pid n c : String)
    (hwf : WF db) (hfresh : (c, n) ∉ loadTagPairs db pid) :
    ∃ db', insertPromptTag (ensureTag db n c).1 pid (ensureTag db n c).2 = Except.ok db' ∧
      db'.prompts = db.prompts ∧ WF db' ∧
      loadTagPairs db' pid = loadTagPairs db pid ++ [(c, n)] ∧
      (∀ pid', pid' ≠ pid → loadTagPairs db' pid' = loadTagPairs db pid') ∧
      (∀ pr ∈ db'.prompt_tags, pr.1 = pid ∨ pr ∈ db.prompt_tags) := by
  set db1 := (ensureTag db n c).1 with hdb1
  set tid := (ensureTag db n c).2 with htid
  have hpt1 : db1.prompt_tags = db.prompt_tags := ensureTag_prompt_tags db n c
  have hprompts1 : db1.prompts = db.prompts := ensureTag_prompts db n c
  have hfind : db1.tags.find? (fun x => x.id == tid) = some ⟨tid, n, c⟩ :=
    ensureTag_find db n c hwf.tagIdsNodup hwf.tagIdsBound
  have htl : tid < db1.nextTagId := ensureTag_tid_lt db n c hwf.tagIdsBound
  have hnotmem : (pid, tid) ∉ db1.prompt_tags := by
    rw [hpt1]
    intro hmem
    have htb : tid < db.nextTagId := hwf.ptBound (pid, tid) hmem
    have hstable := ensureTag_find_stable db n c tid htb
    have hfind0 : db.tags.find? (fun x => x.id == tid) = some ⟨tid, n, c⟩ := by
      rw [← hstable]; exact hfind
    apply hfresh
    unfold loadTagPairs
    rw [List.mem_filterMap]
    refine ⟨(pid, tid), ?_, ?_⟩
    · rw [List.mem_filter]
      exact ⟨hmem, by simp⟩
    · simp [hfind0]
  refine ⟨{ db1 with prompt_tags := db1.prompt_tags ++ [(pid, tid)] }, ?_, ?_, ?_, ?_, ?_, ?_⟩
  · simp [insertPromptTag, hnotmem]
  · exact hprompts1
  · constructor
    · rw [hprompts1]; exact hwf.promptIdsNodup
    · exact ensureTag_tagIdsNodup db n c hwf.tagIdsNodup hwf.tagIdsBound
    · exact ensureTag_tagPairsNodup db n c hwf.tagPairsNodup
    · exact ensureTag_tagIdsBound db n c hwf.tagIdsBound
    · intro pr hpr
      simp only [List.mem_append, List.mem_singleton] at hpr
      rcases hpr with hpr | rfl
      · rw [hpt1] at hpr
        exact lt_of_lt_of_le (hwf.ptBound pr hpr) (ensureTag_next_mono db n c)
      · exact htl
    · rw [hpt1]
      refine List.Nodup.append hwf.ptNodup (List.nodup_singleton _) ?_
      intro x hx hx'
      simp only [List.mem_singleton] at hx'
      subst hx'
      rw [hpt1] at hnotmem
      exact hnotmem hx
  · show loadTagPairs _ pid = _
    unfold loadTagPairs
    simp only [List.filter_append]
    rw [List.filterMap_append]
    have hnew : (List.filter (fun pt => pt.1 == pid) [(pid, tid)]) = [(pid, tid)] := by simp
    rw [hnew]
    congr 1
    · rw [hpt1]
      apply List.filterMap_congr
      intro pr hpr
      have hmem : pr ∈ db.prompt_tags := List.mem_of_mem_filter hpr
      exact congrArg _ (ensureTag_find_stable db n c pr.2 (hwf.ptBound pr hmem))
    · simp [List.filterMap, hfind]
  · intro pid' hpid'
    unfold loadTagPairs
    simp only [List.filter_append]
    have hnew : (List.filter (fun pt => pt.1 == pid') [(pid, tid)]) = [] := by
      simp [beq_false_of_ne (Ne.symm hpid')]
    rw [hnew, List.append_nil, hpt1]
    apply List.filterMap_congr
    intro pr hpr
    have hmem : pr ∈ db.prompt_tags := List.mem_of_mem_filter hpr
    exact congrArg _ (ensureTag_find_stable db n c pr.2 (hwf.ptBound pr hmem))
  · intro pr hpr
    simp only [List.mem_append, List.mem_singleton] at hpr
    rcases hpr with hpr | rfl
    · rw [hpt1] at hpr
      exact Or.inr hpr
    · exact Or.inl rfl

end PromptRepository

namespace PromptRepository

/-- The tag loop of `save` for one category: succeeds on distinct fresh
names, appends exactly those `(category, name)` pairs to the prompt's
join rows, leaves every other prompt alone. -/
theorem saveTagNames_spec (c : String) (ns : List String) (db : DB) (pid : String)
    (hwf : WF db) (hnodup : ns.Nodup)
    (hfresh : ∀ n ∈ ns, (c, n) ∉ loadTagPairs db pid) :
    ∃ db', saveTagNames db pid c ns = Except.ok db' ∧
      db'.prompts = db.prompts ∧ WF db' ∧
      loadTagPairs db' pid = loadTagPairs db pid ++ ns.map (fun n => (c, n)) ∧
      (∀ pid', pid' ≠ pid → loadTagPairs db' pid' = loadTagPairs db pid') ∧
      (∀ pr ∈ db'.prompt_tags, pr.1 = pid ∨ pr ∈ db.prompt_tags) := by
  induction ns generalizing db with
  | nil =>
      exact ⟨db, rfl, rfl, hwf, by simp, fun _ _ => rfl, fun pr hpr => Or.inr hpr⟩
  | cons n rest ih =>
      obtain ⟨db1, hok, hpr1, hwf1, hload1, hframe1, hsup1⟩ :=
        saveTagStep_spec db pid n c hwf (hfresh n (List.mem_cons_self _ _))
      have hnodup' := (List.nodup_cons.mp hnodup).2
      have hn : n ∉ rest := (List.nodup_cons.mp hnodup).1
      have hfresh' : ∀ m ∈ rest, (c, m) ∉ loadTagPairs db1 pid := by
        intro m hm
        rw [hload1]
        simp only [List.mem_append, List.mem_singleton, Prod.mk.injEq]
        rintro (h | ⟨-, rfl⟩)
        · exact hfresh m (List.mem_cons_of_mem _ hm) h
        · exact hn hm
      obtain ⟨db', hok', hpr', hwf', hload', hframe', hsup'⟩ := ih db1 hwf1 hnodup' hfresh'
      refine ⟨db', ?_, hpr'.trans hpr1, hwf', ?_, ?_, ?_⟩
      · show saveTagNames db pid c (n :: rest) = Except.ok db'
        show (match insertPromptTag (ensureTag db n c).1 pid (ensureTag db n c).2 with
              | Except.error e => Except.error e
              | Except.ok db2 => saveTagNames db2 pid c rest) = Except.ok db'
        rw [hok]
        exact hok'
      · rw [hload', hload1]
        simp
      · intro pid' hpid'
        rw [hframe' pid' hpid', hframe1 pid' hpid']
      · intro pr hpr
        rcases hsup' pr hpr with h | h
        · exact Or.inl h
        · exact hsup1 pr h

/-- The full tag loop of `save` over `tags_data.items()`: succeeds when
the flattened `(category, value)` pairs are distinct and fresh, and
appends exactly them. -/
theorem saveTagsData_spec (T : List (String × List String)) (db : DB) (pid : String)
    (hwf : WF db) (hnodup : (flatPairs T).Nodup)
    (hfresh : ∀ pr ∈ flatPairs T, pr ∉ loadTagPairs db pid) :
    ∃ db', saveTagsData db pid T = Except.ok db' ∧
      db'.prompts = db.prompts ∧ WF db' ∧
      loadTagPairs db' pid = loadTagPairs db pid ++ flatPairs T ∧
      (∀ pid', pid' ≠ pid → loadTagPairs db' pid' = loadTagPairs db pid') ∧
      (∀ pr ∈ db'.prompt_tags, pr.1 = pid ∨ pr ∈ db.prompt_tags) := by
  induction T generalizing db with
  | nil =>
      exact ⟨db, rfl, rfl, hwf, by simp [flatPairs], fun _ _ => rfl, fun pr hpr => Or.inr hpr⟩
  | cons cns rest ih =>
      obtain ⟨c, ns⟩ := cns
      rw [flatPairs_cons] at hnodup hfresh
      have hns : ns.Nodup := by
        have := (List.nodup_append.mp hnodup).1
        exact this.of_map _
      have hfreshns : ∀ n ∈ ns, (c, n) ∉ loadTagPairs db pid := by
        intro n hn
        exact hfresh (c, n) (List.mem_append_left _ (List.mem_map_of_mem _ hn))
      obtain ⟨db1, hok, hpr1, hwf1, hload1, hframe1, hsup1⟩ :=
        saveTagNames_spec c ns db pid hwf hns hfreshns
      have hnodup' : (flatPairs rest).Nodup := (List.nodup_append.mp hnodup).2.1
      have hdisj := (List.nodup_append.mp hnodup).2.2
      have hfresh' : ∀ pr ∈ flatPairs rest, pr ∉ loadTagPairs db1 pid := by
        intro pr hpr
        rw [hload1]
        simp only [List.mem_append]
        rintro (h | h)
        · exact hfresh pr (List.mem_append_right _ hpr) h
        · exact hdisj h hpr
      obtain ⟨db', hok', hpr', hwf', hload', hframe', hsup'⟩ := ih db1 hwf1 hnodup' hfresh'
      refine ⟨db', ?_, hpr'.trans hpr1, hwf', ?_, ?_, ?_⟩
      · show saveTagsData db pid ((c, ns) :: rest) = Except.ok db'
        unfold saveTagsData
        rw [hok]
        exact hok'
      · rw [hload', hload1, flatPairs_cons]
        simp
      · intro pid' hpid'
        rw [hframe' pid' hpid', hframe1 pid' hpid']
      · intro pr hpr
        rcases hsup' pr hpr with h | h
        · exact Or.inl h
        · exact hsup1 pr h

end PromptRepository

theorem filter_filter_self (l : List (String × Nat)) (a : String) :
    (l.filter (fun x => x.1 != a)).filter (fun x => x.1 == a) = [] := by
  rw [List.filter_eq_nil_iff]
  intro x hx
  have := List.of_mem_filter hx
  simp only [bne_iff_ne, ne_eq] at this
  simp [this]

theorem filter_filter_ne (l : List (String × Nat)) {a b : String} (h : b ≠ a) :
    (l.filter (fun x => x.1 != a)).filter (fun x => x.1 == b) =
      l.filter (fun x => x.1 == b) := by
  induction l with
  | nil => rfl
  | cons x tl ih =>
      by_cases hx : x.1 = a
      · have h1 : (x.1 != a) = false := by simp [hx]
        have h2 : (x.1 == b) = false := by simp [hx, Ne.symm h]
        simp only [List.filter_cons, h1, h2, if_neg, Bool.false_eq_true, if_false]
        exact ih
      · have h1 : (x.1 != a) = true := by simp [hx]
        simp only [List.filter_cons, h1, if_pos trivial, if_true]
        cases hb : (x.1 == b) <;> simp [hb, ih]

theorem find?_map_idpres (f : Prompt → Prompt) (hf : ∀ x, (f x).id = x.id)
    (l : List Prompt) (v : String) :
    (l.map f).find? (fun r => r.id == v) = (l.find? (fun r => r.id == v)).map f := by
  induction l with
  | nil => rfl
  | cons hd tl ih =>
      simp only [List.map_cons, List.find?, hf hd]
      cases h : (hd.id == v)
      · simpa using ih
      · rfl

namespace PromptRepository

theorem updateRow_id (old p : Prompt) (now : String) : (updateRow old p now).id = old.id := rfl

theorem insertRow_id (p : Prompt) (now : String) : (insertRow p now).id = p.id := rfl

/-- The tag half of `save` (delete all of the prompt's association rows,
reinsert from `tags_data`), for any prompt-row phase result `db1` that
left the tag tables untouched. -/
theorem saveTags_phase (db db1 : DB) (pid : String) (T : List (String × List String))
    (hwf1 : WF db1) (h1tags : db1.tags = db.tags) (h1pt : db1.prompt_tags = db.prompt_tags)
    (hnodup : (flatPairs T).Nodup) :
    ∃ db', saveTagsData
        { db1 with prompt_tags := db1.prompt_tags.filter (fun pt => pt.1 != pid) } pid T =
          Except.ok db' ∧
      db'.prompts = db1.prompts ∧ WF db' ∧
      loadTagPairs db' pid = flatPairs T ∧
      (∀ pid', pid' ≠ pid → loadTagPairs db' pid' = loadTagPairs db pid') ∧
      (∀ pr ∈ db'.prompt_tags, pr.1 = pid ∨ pr ∈ db.prompt_tags) := by
  set db2 : DB := { db1 with prompt_tags := db1.prompt_tags.filter (fun pt => pt.1 != pid) }
    with hdb2
  have hwf2 : WF db2 := by
    constructor
    · exact hwf1.promptIdsNodup
    · exact hwf1.tagIdsNodup
    · exact hwf1.tagPairsNodup
    · exact hwf1.tagIdsBound
    · intro pr hpr
      exact hwf1.ptBound pr (List.mem_of_mem_filter hpr)
    · exact hwf1.ptNodup.filter _
  have hload2 : loadTagPairs db2 pid = [] := by
    unfold loadTagPairs
    rw [show db2.prompt_tags = db1.prompt_tags.filter (fun pt => pt.1 != pid) from rfl]
    rw [filter_filter_self]
    rfl
  have hframe2 : ∀ pid', pid' ≠ pid → loadTagPairs db2 pid' = loadTagPairs db pid' := by
    intro pid' hpid'
    unfold loadTagPairs
    rw [show db2.prompt_tags = db1.prompt_tags.filter (fun pt => pt.1 != pid) from rfl]
    rw [h1pt, filter_filter_ne db.prompt_tags hpid']
    rw [show db2.tags = db.tags from h1tags]
  obtain ⟨db', hok, hprompts, hwf', hload', hframe', hsup'⟩ :=
    saveTagsData_spec T db2 pid hwf2 hnodup (by rw [hload2]; intro pr hpr h; cases h)
  refine ⟨db', hok, hprompts, hwf', ?_, ?_, ?_⟩
  · rw [hload', hload2, List.nil_append]
  · intro pid' hpid'
    rw [hframe' pid' hpid', hframe2 pid' hpid']
  · intro pr hpr
    rcases hsup' pr hpr with h | h
    · exact Or.inl h
    · exact Or.inr (h1pt ▸ List.mem_of_mem_filter h)

end PromptRepository

namespace PromptRepository

/-- Full characterization of a successful `save`: with distinct
`(category, value)` pairs it always succeeds; the prompt's join rows
become exactly the flattened input pairs; other prompts' join rows,
and prompt rows other than the saved one, are untouched; the saved row
is the `UPDATE` row (when the id existed) or the `INSERT` row (when
not); every association row is the saved prompt's or was already
present; stored prompt ids only grow. -/
theorem save_spec (db : DB) (p : Prompt) (T : List (String × List String)) (now : String)
    (hwf : WF db) (hnodup : (flatPairs T).Nodup) :
    ∃ db', save db p T now = Except.ok db' ∧ WF db' ∧
      loadTagPairs db' p.id = flatPairs T ∧
      (∀ pid', pid' ≠ p.id → loadTagPairs db' pid' = loadTagPairs db pid') ∧
      (∀ pr ∈ db'.prompt_tags, pr.1 = p.id ∨ pr ∈ db.prompt_tags) ∧
      (∀ row₀, db.prompts.find? (fun r => r.id == p.id) = some row₀ →
          db'.prompts.find? (fun r => r.id == p.id) = some (updateRow row₀ p now)) ∧
      (db.prompts.find? (fun r => r.id == p.id) = none →
          db'.prompts.find? (fun r => r.id == p.id) = some (insertRow p now)) ∧
      (∀ x, x ≠ p.id →
          db'.prompts.find? (fun r => r.id == x) = db.prompts.find? (fun r => r.id == x)) ∧
      (∀ i, i ∈ db.prompts.map Prompt.id → i ∈ db'.prompts.map Prompt.id) ∧
      p.id ∈ db'.prompts.map Prompt.id ∧
      (db'.prompts.map Prompt.id = db.prompts.map Prompt.id ∨
        db'.prompts.map Prompt.id = db.prompts.map Prompt.id ++ [p.id]) := by
  by_cases hc : (db.prompts.find? (fun row => row.id == p.id)).isSome
  · -- UPDATE branch
    obtain ⟨row₀, hrow₀⟩ := Option.isSome_iff_exists.mp hc
    have hrow₀id : row₀.id = p.id := by
      have := List.find?_some hrow₀
      exact beq_iff_eq.mp this
    set f : Prompt → Prompt :=
      fun row => if row.id == p.id then updateRow row p now else row with hf
    have hfid : ∀ x, (f x).id = x.id := by
      intro x
      rw [hf]
      by_cases h : x.id == p.id <;> simp [h, updateRow_id]
    set db1 : DB := { db with prompts := db.prompts.map f } with hdb1
    have hwf1 : WF db1 := by
      constructor
      · show ((db.prompts.map f).map Prompt.id).Nodup
        rw [List.map_map]
        have : (Prompt.id ∘ f) = Prompt.id := funext (fun x => hfid x)
        rw [this]
        exact hwf.promptIdsNodup
      · exact hwf.tagIdsNodup
      · exact hwf.tagPairsNodup
      · exact hwf.tagIdsBound
      · exact hwf.ptBound
      · exact hwf.ptNodup
    obtain ⟨db', hok, hprompts', hwf', hload', hframe', hsup'⟩ :=
      saveTags_phase db db1 p.id T hwf1 rfl rfl hnodup
    have hsave : save db p T now =
        saveTagsData { db1 with prompt_tags := db1.prompt_tags.filter (fun pt => pt.1 != p.id) }
          p.id T := by
      unfold save
      rw [if_pos hc]
    have hids1 : db'.prompts.map Prompt.id = db.prompts.map Prompt.id := by
      rw [hprompts']
      show (db.prompts.map f).map Prompt.id = _
      have hcomp : (Prompt.id ∘ f) = Prompt.id := funext (fun x => hfid x)
      rw [List.map_map, hcomp]
    refine ⟨db', by rw [hsave]; exact hok, hwf', hload', hframe', hsup', ?_, ?_, ?_, ?_, ?_,
      Or.inl hids1⟩
    · intro row₁ hrow₁
      rw [hrow₀] at hrow₁
      injection hrow₁ with h
      subst h
      rw [hprompts']
      show (db.prompts.map f).find? (fun r => r.id == p.id) = _
      rw [find?_map_idpres f hfid, hrow₀]
      simp [hf, hrow₀id]
    · intro hnone
      rw [hnone] at hrow₀
      cases hrow₀
    · intro x hx
      rw [hprompts']
      show (db.prompts.map f).find? (fun r => r.id == x) = _
      rw [find?_map_idpres f hfid]
      cases hfind : db.prompts.find? (fun r => r.id == x) with
      | none => rfl
      | some row =>
          have hridx : row.id = x := by simpa using List.find?_some hfind
          have hne : (row.id == p.id) = false := by
            rw [hridx]
            exact beq_false_of_ne hx
          simp only [hf]
          simp [hne]
          intro h
          rw [h] at hne
          simp at hne
    · intro i hi
      rw [hids1]
      exact hi
    · rw [hids1, ← hrow₀id]
      exact List.mem_map_of_mem Prompt.id (List.mem_of_find?_eq_some hrow₀)
  · -- INSERT branch
    have hnone : db.prompts.find? (fun row => row.id == p.id) = none :=
      Option.not_isSome_iff_eq_none.mp hc
    have hfresh : p.id ∉ db.prompts.map Prompt.id := by
      intro hmem
      obtain ⟨row, hrow, hid⟩ := List.mem_map.mp hmem
      have := List.find?_eq_none.mp hnone row hrow
      simp [hid] at this
    set db1 : DB := { db with prompts := db.prompts ++ [insertRow p now] } with hdb1
    have hwf1 : WF db1 := by
      constructor
      · show ((db.prompts ++ [insertRow p now]).map Prompt.id).Nodup
        rw [List.map_append]
        refine List.Nodup.append hwf.promptIdsNodup (by simp) ?_
        intro x hx hx'
        simp only [List.map_cons, List.map_nil, List.mem_singleton, insertRow_id] at hx'
        subst hx'
        exact hfresh hx
      · exact hwf.tagIdsNodup
      · exact hwf.tagPairsNodup
      · exact hwf.tagIdsBound
      · exact hwf.ptBound
      · exact hwf.ptNodup
    obtain ⟨db', hok, hprompts', hwf', hload', hframe', hsup'⟩ :=
      saveTags_phase db db1 p.id T hwf1 rfl rfl hnodup
    have hsave : save db p T now =
        saveTagsData { db1 with prompt_tags := db1.prompt_tags.filter (fun pt => pt.1 != p.id) }
          p.id T := by
      unfold save
      rw [if_neg hc]
    have hids1 : db'.prompts.map Prompt.id = db.prompts.map Prompt.id ++ [p.id] := by
      rw [hprompts']
      show (db.prompts ++ [insertRow p now]).map Prompt.id = _
      rw [List.map_append]
      rfl
    refine ⟨db', by rw [hsave]; exact hok, hwf', hload', hframe', hsup', ?_, ?_, ?_, ?_, ?_,
      Or.inr hids1⟩
    · intro row₁ hrow₁
      rw [hnone] at hrow₁
      cases hrow₁
    · intro _
      rw [hprompts']
      show (db.prompts ++ [insertRow p now]).find? (fun r => r.id == p.id) = _
      rw [List.find?_append, hnone]
      simp [List.find?, insertRow_id]
    · intro x hx
      rw [hprompts']
      show (db.prompts ++ [insertRow p now]).find? (fun r => r.id == x) = _
      rw [List.find?_append]
      have : ([insertRow p now].find? (fun r => r.id == x)) = none := by
        simp [List.find?, insertRow_id, beq_false_of_ne (Ne.symm hx)]
      rw [this, Option.or_none]
    · intro i hi
      rw [hids1]
      exact List.mem_append_left _ hi
    · rw [hids1]
      exact List.mem_append_right _ (by simp)

end PromptRepository

/-! ### Copy-text rendering -/

/-- The rendering equation shared by C2 and C9: `get_copy_text` is the
instructions field for the exact type string `"standard"`, and the
filtered headed-section join otherwise. -/
theorem get_copy_text_eq (p : Prompt) :
    p.get_copy_text =
      if p.prompt_type = "standard" then p.instructions else p.structuredSpecText := by
  by_cases ht : p.prompt_type = "standard"
  · simp [Prompt.get_copy_text, ht]
  · have hb : (p.prompt_type == "standard") = false := beq_false_of_ne ht
    simp only [Prompt.get_copy_text, hb, Bool.false_eq_true, if_false, if_neg ht]
    unfold Prompt.structuredSpecText Prompt.sectionList
    by_cases h1 : p.persona = "" <;> by_cases h2 : p.context = "" <;>
      by_cases h3 : p.task = "" <;> by_cases h4 : p.style = "" <;>
      by_cases h5 : p.«variables» = "" <;>
      simp [h1, h2, h3, h4, h5]

/-- C2: for every prompt, `get_copy_text` returns the `instructions`
field verbatim when `prompt_type` is `"standard"`, and otherwise joins
exactly the non-empty fields among persona, context, task, style,
variables — in that fixed order, each under its fixed header — with the
separator `"\n\n---\n\n"`, omitting empty fields entirely; in
particular a structured prompt with only the task set renders exactly
`"### TASK\nSummarize the document"`. -/
theorem claim_C2_copy_text :
    (∀ p : Prompt, p.get_copy_text =
        if p.prompt_type = "standard" then p.instructions
        else
          String.intercalate "\n\n---\n\n"
            (((p.sectionList).filter (fun s => s.2 ≠ "")).map (fun s => s.1 ++ s.2))) ∧
    Prompt.get_copy_text
        { id := "p1", title := "Doc summary", task := "Summarize the document" } =
      "### TASK\nSummarize the document" := by
  constructor
  · intro p
    rw [get_copy_text_eq]
    rfl
  · rfl

/-- C9: every prompt whose `prompt_type` differs from the exact string
`"standard"` — including unrecognized or empty type strings — is
rendered by the structured rule over persona/context/task/style/
variables, and its `instructions` field can never leak into the
output. -/
theorem claim_C9_nonstandard_structured (p : Prompt) (h : p.prompt_type ≠ "standard") :
    p.get_copy_text = p.structuredSpecText ∧
    ∀ s, ({ p with instructions := s } : Prompt).get_copy_text = p.get_copy_text := by
  constructor
  · rw [get_copy_text_eq, if_neg h]
  · intro s
    rw [get_copy_text_eq, get_copy_text_eq]
    simp only [if_neg h]
    rfl

/-- Witness for C9 at a concrete prompt with the unrecognized type
string `"Standard"` (wrong case) and a non-empty instructions field. -/
theorem claim_C9_witness :
    (({ id := "w9", title := "W", prompt_type := "Standard",
        instructions := "SHOULD NOT APPEAR", task := "Do the thing" } : Prompt).prompt_type
          ≠ "standard") ∧
    (({ id := "w9", title := "W", prompt_type := "Standard",
        instructions := "SHOULD NOT APPEAR", task := "Do the thing" } : Prompt).get_copy_text =
        ({ id := "w9", title := "W", prompt_type := "Standard",
           instructions := "SHOULD NOT APPEAR", task := "Do the thing" } : Prompt).structuredSpecText ∧
      ∀ s, ({ ({ id := "w9", title := "W", prompt_type := "Standard",
                 instructions := "SHOULD NOT APPEAR", task := "Do the thing" } : Prompt) with
                instructions := s } : Prompt).get_copy_text =
          ({ id := "w9", title := "W", prompt_type := "Standard",
             instructions := "SHOULD NOT APPEAR", task := "Do the thing" } : Prompt).get_copy_text) :=
  ⟨by decide,
   claim_C9_nonstandard_structured
     { id := "w9", title := "W", prompt_type := "Standard",
       instructions := "SHOULD NOT APPEAR", task := "Do the thing" } (by decide)⟩

/-- Counterexample to C5 as stated: deleting an id that does not exist
still returns the success value `true`; the repository never reports
"not found" (the claimed unsuccessful result would be `false`). -/
theorem claim_C5_counterexample :
    PromptRepository.get_by_id emptyDB "missing" = none ∧
    (PromptRepository.delete emptyDB "missing").2 ≠ false := by
  exact ⟨rfl, by decide⟩

/-- C5 (amended): `delete` never raises and is safe on nonexistent ids;
it removes the prompt's association rows and its row when present, and
a repeated delete of the same id is a no-op — but the call always
reports success `true`, even when the id does not exist, so absence is
never reported. -/
theorem claim_C5_delete_idempotent (db : DB) (pid : String) :
    (PromptRepository.delete db pid).2 = true ∧
    (PromptRepository.delete db pid).1.prompts =
      db.prompts.filter (fun row => row.id != pid) ∧
    (PromptRepository.delete db pid).1.prompt_tags =
      db.prompt_tags.filter (fun pt => pt.1 != pid) ∧
    PromptRepository.get_by_id (PromptRepository.delete db pid).1 pid = none ∧
    PromptRepository.delete (PromptRepository.delete db pid).1 pid =
      PromptRepository.delete db pid := by
  refine ⟨rfl, rfl, rfl, ?_, ?_⟩
  · unfold PromptRepository.get_by_id
    have : (db.prompts.filter (fun row => row.id != pid)).find?
        (fun row => row.id == pid) = none := by
      rw [List.find?_eq_none]
      intro row hrow
      have := List.of_mem_filter hrow
      simp only [bne_iff_ne, ne_eq] at this
      simp [this]
    rw [show (PromptRepository.delete db pid).1.prompts =
          db.prompts.filter (fun row => row.id != pid) from rfl]
    rw [this]
    rfl
  · unfold PromptRepository.delete
    simp only [Prod.mk.injEq]
    refine ⟨?_, trivial⟩
    have h1 : (db.prompts.filter (fun row => row.id != pid)).filter
        (fun row => row.id != pid) = db.prompts.filter (fun row => row.id != pid) := by
      rw [List.filter_filter]
      simp
    have h2 : (db.prompt_tags.filter (fun pt => pt.1 != pid)).filter
        (fun pt => pt.1 != pid) = db.prompt_tags.filter (fun pt => pt.1 != pid) := by
      rw [List.filter_filter]
      simp
    rw [h1, h2]

/-- Counterexample to C6 as stated: the `UPDATE` statement of `save`
does not list `is_favorite` in its `SET` clause, so saving over a
favorite prompt with `is_favorite = 0` in the call leaves the stored
flag at `1` — `is_favorite` is not overwritten with the supplied
value. -/
theorem claim_C6_counterexample :
    overwriteP.is_favorite = 0 ∧
    ((PromptRepository.saveRun favDB overwriteP [] "2021-05-05 00:00:00 UTC").prompts.find?
        (fun r => r.id == "c6")).map Prompt.is_favorite = some 1 ∧
    some (1 : Int) ≠ some (0 : Int) := by
  refine ⟨rfl, ?_, by decide⟩
  decide

/-- C6 (amended): updating an existing prompt preserves the stored
`id`, `created_at` and `is_favorite` (the latter is not in the
`UPDATE`'s `SET` list, so the supplied value is ignored), refreshes
`last_modified` to the current time, and overwrites every content
field — title, use_case, description, usage_notes, version, persona,
context, task, style, variables, prompt_type, instructions — with the
values supplied in the call. -/
theorem claim_C6_update_fields (db : DB) (p : Prompt) (T : List (String × List String))
    (now : String) (hwf : WF db) (hnodup : (flatPairs T).Nodup) (row₀ : Prompt)
    (hrow₀ : db.prompts.find? (fun r => r.id == p.id) = some row₀) :
    ∃ db', PromptRepository.save db p T now = Except.ok db' ∧
      db'.prompts.find? (fun r => r.id == p.id) =
        some (PromptRepository.updateRow row₀ p now) ∧
      (PromptRepository.updateRow row₀ p now).id = row₀.id ∧
      (PromptRepository.updateRow row₀ p now).created_at = row₀.created_at ∧
      (PromptRepository.updateRow row₀ p now).is_favorite = row₀.is_favorite ∧
      (PromptRepository.updateRow row₀ p now).last_modified = now ∧
      (PromptRepository.updateRow row₀ p now).title = p.title ∧
      (PromptRepository.updateRow row₀ p now).use_case = p.use_case ∧
      (PromptRepository.updateRow row₀ p now).description = p.description ∧
      (PromptRepository.updateRow row₀ p now).usage_notes = p.usage_notes ∧
      (PromptRepository.updateRow row₀ p now).version = p.version ∧
      (PromptRepository.updateRow row₀ p now).persona = p.persona ∧
      (PromptRepository.updateRow row₀ p now).context = p.context ∧
      (PromptRepository.updateRow row₀ p now).task = p.task ∧
      (PromptRepository.updateRow row₀ p now).style = p.style ∧
      (PromptRepository.updateRow row₀ p now).«variables» = p.«variables» ∧
      (PromptRepository.updateRow row₀ p now).prompt_type = p.prompt_type ∧
      (PromptRepository.updateRow row₀ p now).instructions = p.instructions := by
  obtain ⟨db', hok, _, _, _, _, hup, _, _, _, _, _⟩ :=
    PromptRepository.save_spec db p T now hwf hnodup
  exact ⟨db', hok, hup row₀ hrow₀, rfl, rfl, rfl, rfl, rfl, rfl, rfl, rfl, rfl, rfl, rfl,
    rfl, rfl, rfl, rfl, rfl⟩

/-- Witness for the amended C6 at the concrete favorite row. -/
theorem claim_C6_witness :
    WF favDB ∧ (flatPairs ([] : List (String × List String))).Nodup ∧
    favDB.prompts.find? (fun r => r.id == overwriteP.id) = some favRow ∧
    (∃ db', PromptRepository.save favDB overwriteP [] "2021-05-05 00:00:00 UTC" =
        Except.ok db' ∧
      db'.prompts.find? (fun r => r.id == overwriteP.id) =
        some (PromptRepository.updateRow favRow overwriteP "2021-05-05 00:00:00 UTC") ∧
      (PromptRepository.updateRow favRow overwriteP "2021-05-05 00:00:00 UTC").id = favRow.id ∧
      (PromptRepository.updateRow favRow overwriteP "2021-05-05 00:00:00 UTC").created_at =
        favRow.created_at ∧
      (PromptRepository.updateRow favRow overwriteP "2021-05-05 00:00:00 UTC").is_favorite =
        favRow.is_favorite ∧
      (PromptRepository.updateRow favRow overwriteP "2021-05-05 00:00:00 UTC").last_modified =
        "2021-05-05 00:00:00 UTC" ∧
      (PromptRepository.updateRow favRow overwriteP "2021-05-05 00:00:00 UTC").title =
        overwriteP.title ∧
      (PromptRepository.updateRow favRow overwriteP "2021-05-05 00:00:00 UTC").use_case =
        overwriteP.use_case ∧
      (PromptRepository.updateRow favRow overwriteP "2021-05-05 00:00:00 UTC").description =
        overwriteP.description ∧
      (PromptRepository.updateRow favRow overwriteP "2021-05-05 00:00:00 UTC").usage_notes =
        overwriteP.usage_notes ∧
      (PromptRepository.updateRow favRow overwriteP "2021-05-05 00:00:00 UTC").version =
        overwriteP.version ∧
      (PromptRepository.updateRow favRow overwriteP "2021-05-05 00:00:00 UTC").persona =
        overwriteP.persona ∧
      (PromptRepository.updateRow favRow overwriteP "2021-05-05 00:00:00 UTC").context =
        overwriteP.context ∧
      (PromptRepository.updateRow favRow overwriteP "2021-05-05 00:00:00 UTC").task =
        overwriteP.task ∧
      (PromptRepository.updateRow favRow overwriteP "2021-05-05 00:00:00 UTC").style =
        overwriteP.style ∧
      (PromptRepository.updateRow favRow overwriteP "2021-05-05 00:00:00 UTC").«variables» =
        overwriteP.«variables» ∧
      (PromptRepository.updateRow favRow overwriteP "2021-05-05 00:00:00 UTC").prompt_type =
        overwriteP.prompt_type ∧
      (PromptRepository.updateRow favRow overwriteP "2021-05-05 00:00:00 UTC").instructions =
        overwriteP.instructions) :=
  ⟨⟨by decide, by decide, by decide, by decide, by decide, by decide⟩, by decide, by decide,
   claim_C6_update_fields favDB overwriteP [] "2021-05-05 00:00:00 UTC"
     ⟨by decide, by decide, by decide, by decide, by decide, by decide⟩ (by decide)
     favRow (by decide)⟩

/-- C1: for every prompt and tag map `T` (distinct `(category, value)`
pairs, as a Python dict of selections always has), `save` succeeds and
a following `load_by_id` returns a record whose tag map contains
exactly the pairs of `T` — the save deletes all existing associations
of the prompt and reinserts exactly `T`'s pairs, and saving an empty
tag map leaves the prompt with no tags at all. -/
theorem claim_C1_save_load_tags (db : DB) (p : Prompt) (T : List (String × List String))
    (now : String) (hwf : WF db) (hnodup : (flatPairs T).Nodup) :
    ∃ db', PromptRepository.save db p T now = Except.ok db' ∧
      ∃ q, PromptRepository.get_by_id db' p.id = some q ∧
        (∀ c v, v ∈ tagsGet q.tags c ↔ (c, v) ∈ flatPairs T) ∧
        (T = [] → q.tags = []) := by
  obtain ⟨db', hok, hwf', hload', hframe', hsup', hup, hins, hfr, hsub, hmem, hdicho⟩ :=
    PromptRepository.save_spec db p T now hwf hnodup
  have hget : ∀ row, db'.prompts.find? (fun r => r.id == p.id) = some row → row.id = p.id →
      PromptRepository.get_by_id db' p.id =
        some { row with tags := buildTagMap (flatPairs T) } := by
    intro row hrow hid
    unfold PromptRepository.get_by_id
    rw [hrow, Option.map_some', hid]
    unfold loadTags
    rw [hload']
  have hsome : ∃ row, db'.prompts.find? (fun r => r.id == p.id) = some row ∧ row.id = p.id := by
    cases hfind0 : db.prompts.find? (fun r => r.id == p.id) with
    | some row₀ =>
        refine ⟨PromptRepository.updateRow row₀ p now, hup row₀ hfind0, ?_⟩
        rw [PromptRepository.updateRow_id]
        exact beq_iff_eq.mp (by simpa using List.find?_some hfind0)
    | none => exact ⟨PromptRepository.insertRow p now, hins hfind0, rfl⟩
  obtain ⟨row, hrow, hid⟩ := hsome
  refine ⟨db', hok, { row with tags := buildTagMap (flatPairs T) }, hget row hrow hid, ?_, ?_⟩
  · intro c v
    exact mem_tagsGet_buildTagMap (flatPairs T) c v
  · intro hT
    subst hT
    rfl

/-- Witness for C1: a fresh save into the empty store with a two-category
tag map, then an empty-map save clearing the tags. -/
theorem claim_C1_witness :
    WF emptyDB ∧
    (flatPairs [("Task Type", ["analysis"]), ("Complexity", ["basic"])]).Nodup ∧
    (∃ db', PromptRepository.save emptyDB { id := "w1", title := "W" }
        [("Task Type", ["analysis"]), ("Complexity", ["basic"])]
        "2025-01-01 00:00:00 UTC" = Except.ok db' ∧
      ∃ q, PromptRepository.get_by_id db' ({ id := "w1", title := "W" } : Prompt).id = some q ∧
        (∀ c v, v ∈ tagsGet q.tags c ↔
            (c, v) ∈ flatPairs [("Task Type", ["analysis"]), ("Complexity", ["basic"])]) ∧
        ([("Task Type", ["analysis"]), ("Complexity", ["basic"])] =
            ([] : List (String × List String)) → q.tags = [])) :=
  ⟨⟨by decide, by decide, by decide, by decide, by decide, by decide⟩, by decide,
   claim_C1_save_load_tags emptyDB { id := "w1", title := "W" }
     [("Task Type", ["analysis"]), ("Complexity", ["basic"])] "2025-01-01 00:00:00 UTC"
     ⟨by decide, by decide, by decide, by decide, by decide, by decide⟩ (by decide)⟩

theorem tagFilterPred_iff (q : Prompt) (c : String) (ts : List String) (hts : ts ≠ []) :
    ((!q.tags.isEmpty) && ts.all (fun v => (tagsGet q.tags c).contains v)) = true ↔
      ∀ v ∈ ts, v ∈ tagsGet q.tags c := by
  constructor
  · intro h
    simp only [Bool.and_eq_true, List.all_eq_true] at h
    intro v hv
    have := h.2 v hv
    simpa using this
  · intro h
    have hq : q.tags.isEmpty = false := by
      obtain ⟨v0, hv0⟩ := List.exists_mem_of_ne_nil ts hts
      have hmem := h v0 hv0
      cases htags : q.tags with
      | nil =>
          rw [htags] at hmem
          simp [tagsGet, List.lookup] at hmem
      | cons _ _ => rfl
    simp only [hq, Bool.not_false, Bool.true_and, List.all_eq_true]
    intro v hv
    simpa using h v hv

theorem mem_tagFilterStage (sel : List (String × List String)) (ps : List Prompt)
    (q : Prompt) :
    q ∈ tagFilterStage sel ps ↔
      q ∈ ps ∧ ∀ ct ∈ sel, ∀ v ∈ ct.2, v ∈ tagsGet q.tags ct.1 := by
  induction sel generalizing ps with
  | nil => simp [tagFilterStage]
  | cons ct rest ih =>
      obtain ⟨c, ts⟩ := ct
      have hstep : tagFilterStage ((c, ts) :: rest) ps =
          tagFilterStage rest
            (if ts ≠ [] then
              ps.filter (fun p => (!p.tags.isEmpty) &&
                ts.all (fun v => (tagsGet p.tags c).contains v))
             else ps) := rfl
      rw [hstep, ih]
      by_cases hts : ts = []
      · subst hts
        simp [List.forall_mem_cons]
      · rw [if_pos hts]
        rw [List.mem_filter]
        simp only [List.forall_mem_cons]
        rw [tagFilterPred_iff q c ts hts]
        tauto

/-- C7: the tag-filter stage keeps exactly the prompts whose tag set
for each selected category is a superset of that category's selected
values (AND across categories, AND-of-subset within one); every result
of a two-value filter carries both values under that category; and
applying two filters together selects exactly the intersection of the
two individual result sets. -/
theorem claim_C7_tag_filters :
    (∀ sel ps (q : Prompt), q ∈ tagFilterStage sel ps ↔
        q ∈ ps ∧ ∀ ct ∈ sel, ∀ v ∈ ct.2, v ∈ tagsGet q.tags ct.1) ∧
    (∀ (c v1 v2 : String) ps (q : Prompt),
        q ∈ tagFilterStage [(c, [v1, v2])] ps →
          v1 ∈ tagsGet q.tags c ∧ v2 ∈ tagsGet q.tags c) ∧
    (∀ f1 f2 ps (q : Prompt), q ∈ tagFilterStage [f1, f2] ps ↔
        q ∈ tagFilterStage [f1] ps ∧ q ∈ tagFilterStage [f2] ps) := by
  refine ⟨mem_tagFilterStage, ?_, ?_⟩
  · intro c v1 v2 ps q hq
    rw [mem_tagFilterStage] at hq
    have h := hq.2 (c, [v1, v2]) (List.mem_singleton.mpr rfl)
    exact ⟨h v1 (by simp), h v2 (by simp)⟩
  · intro f1 f2 ps q
    simp only [mem_tagFilterStage, List.forall_mem_cons, List.forall_mem_singleton]
    tauto

/-- Witness for C7 at a concrete tagged prompt and a two-value filter. -/
theorem claim_C7_witness :
    taggedQ ∈ tagFilterStage [("Task Type", ["analysis", "debugging"])] [taggedQ] ∧
    ("analysis" ∈ tagsGet taggedQ.tags "Task Type" ∧
      "debugging" ∈ tagsGet taggedQ.tags "Task Type") :=
  ⟨by decide,
   claim_C7_tag_filters.2.1 "Task Type" "analysis" "debugging" [taggedQ] taggedQ (by decide)⟩

namespace PromptRepository

theorem saveTagNames_ok_support (c : String) (ns : List String) (db db' : DB) (pid : String)
    (h : saveTagNames db pid c ns = Except.ok db') :
    db'.prompts = db.prompts ∧
    ∀ pr ∈ db'.prompt_tags, pr.1 = pid ∨ pr ∈ db.prompt_tags := by
  induction ns generalizing db with
  | nil =>
      injection h with h
      subst h
      exact ⟨rfl, fun pr hpr => Or.inr hpr⟩
  | cons n rest ih =>
      have hstep : saveTagNames db pid c (n :: rest) =
          (match insertPromptTag (ensureTag db n c).1 pid (ensureTag db n c).2 with
           | Except.error e => Except.error e
           | Except.ok db2 => saveTagNames db2 pid c rest) := rfl
      rw [hstep] at h
      cases hi : insertPromptTag (ensureTag db n c).1 pid (ensureTag db n c).2 with
      | error e => rw [hi] at h; cases h
      | ok db2 =>
          rw [hi] at h
          unfold insertPromptTag at hi
          by_cases hmem : ((pid, (ensureTag db n c).2) ∈ (ensureTag db n c).1.prompt_tags)
          · rw [if_pos hmem] at hi; cases hi
          · rw [if_neg hmem] at hi
            injection hi with hi
            obtain ⟨hp, hs⟩ := ih db2 h
            constructor
            · rw [hp, ← hi]
              show (ensureTag db n c).1.prompts = db.prompts
              exact ensureTag_prompts db n c
            · intro pr hpr
              rcases hs pr hpr with h' | h'
              · exact Or.inl h'
              · rw [← hi] at h'
                simp only [List.mem_append, List.mem_singleton] at h'
                rcases h' with h' | h'
                · rw [ensureTag_prompt_tags] at h'
                  exact Or.inr h'
                · subst h'
                  exact Or.inl rfl

theorem saveTagsData_ok_support (T : List (String × List String)) (db db' : DB) (pid : String)
    (h : saveTagsData db pid T = Except.ok db') :
    db'.prompts = db.prompts ∧
    ∀ pr ∈ db'.prompt_tags, pr.1 = pid ∨ pr ∈ db.prompt_tags := by
  induction T generalizing db with
  | nil =>
      injection h with h
      subst h
      exact ⟨rfl, fun pr hpr => Or.inr hpr⟩
  | cons cns rest ih =>
      obtain ⟨c, ns⟩ := cns
      have hstep : saveTagsData db pid ((c, ns) :: rest) =
          (match saveTagNames db pid c ns with
           | Except.error e => Except.error e
           | Except.ok db1 => saveTagsData db1 pid rest) := rfl
      rw [hstep] at h
      cases hi : saveTagNames db pid c ns with
      | error e => rw [hi] at h; cases h
      | ok db1 =>
          rw [hi] at h
          obtain ⟨hp1, hs1⟩ := saveTagNames_ok_support c ns db db1 pid hi
          obtain ⟨hp, hs⟩ := ih db1 h
          refine ⟨hp.trans hp1, ?_⟩
          intro pr hpr
          rcases hs pr hpr with h' | h'
          · exact Or.inl h'
          · exact hs1 pr h'

theorem save_ok_support (db : DB) (p : Prompt) (T : List (String × List String))
    (now : String) (db' : DB) (h : save db p T now = Except.ok db') :
    (∀ pr ∈ db'.prompt_tags, pr.1 = p.id ∨ pr ∈ db.prompt_tags) ∧
    (∀ i, i ∈ db.prompts.map Prompt.id → i ∈ db'.prompts.map Prompt.id) ∧
    p.id ∈ db'.prompts.map Prompt.id := by
  by_cases hc : (db.prompts.find? (fun row => row.id == p.id)).isSome
  · set f : Prompt → Prompt :=
      fun row => if row.id == p.id then updateRow row p now else row with hf
    have hfid : ∀ x, (f x).id = x.id := by
      intro x
      rw [hf]
      by_cases hx : x.id == p.id <;> simp [hx, updateRow_id]
    have hsave : save db p T now =
        saveTagsData
          { prompts := db.prompts.map f, tags := db.tags,
            prompt_tags := db.prompt_tags.filter (fun pt => pt.1 != p.id),
            nextTagId := db.nextTagId } p.id T := by
      unfold save
      rw [if_pos hc]
    rw [hsave] at h
    obtain ⟨hp, hs⟩ := saveTagsData_ok_support T _ db' p.id h
    have hids : db'.prompts.map Prompt.id = db.prompts.map Prompt.id := by
      rw [hp]
      show (db.prompts.map f).map Prompt.id = _
      rw [List.map_map, show (Prompt.id ∘ f) = Prompt.id from funext (fun x => hfid x)]
    refine ⟨?_, ?_, ?_⟩
    · intro pr hpr
      rcases hs pr hpr with h' | h'
      · exact Or.inl h'
      · exact Or.inr (List.mem_of_mem_filter h')
    · intro i hi
      rw [hids]
      exact hi
    · rw [hids]
      obtain ⟨row₀, hrow₀⟩ := Option.isSome_iff_exists.mp hc
      have : row₀.id = p.id := beq_iff_eq.mp (by simpa using List.find?_some hrow₀)
      rw [← this]
      exact List.mem_map_of_mem Prompt.id (List.mem_of_find?_eq_some hrow₀)
  · have hsave : save db p T now =
        saveTagsData
          { prompts := db.prompts ++ [insertRow p now], tags := db.tags,
            prompt_tags := db.prompt_tags.filter (fun pt => pt.1 != p.id),
            nextTagId := db.nextTagId } p.id T := by
      unfold save
      rw [if_neg hc]
    rw [hsave] at h
    obtain ⟨hp, hs⟩ := saveTagsData_ok_support T _ db' p.id h
    have hids : db'.prompts.map Prompt.id = db.prompts.map Prompt.id ++ [p.id] := by
      rw [hp]
      show (db.prompts ++ [insertRow p now]).map Prompt.id = _
      rw [List.map_append]
      rfl
    refine ⟨?_, ?_, ?_⟩
    · intro pr hpr
      rcases hs pr hpr with h' | h'
      · exact Or.inl h'
      · exact Or.inr (List.mem_of_mem_filter h')
    · intro i hi
      rw [hids]
      exact List.mem_append_left _ hi
    · rw [hids]
      exact List.mem_append_right _ (by simp)

end PromptRepository

theorem assocsValid_save_ok (db : DB) (p : Prompt) (T : List (String × List String))
    (now : String) (db' : DB) (h : PromptRepository.save db p T now = Except.ok db')
    (hv : assocsValid db) : assocsValid db' := by
  obtain ⟨hs, hsub, hpid⟩ := PromptRepository.save_ok_support db p T now db' h
  intro pr hpr
  rcases hs pr hpr with h' | h'
  · rw [← h'] at hpid
    obtain ⟨row, hrow, hid⟩ := List.mem_map.mp hpid
    exact ⟨row, hrow, hid⟩
  · obtain ⟨row, hrow, hid⟩ := hv pr h'
    have : pr.1 ∈ db'.prompts.map Prompt.id :=
      hsub pr.1 (hid ▸ List.mem_map_of_mem Prompt.id hrow)
    obtain ⟨row', hrow', hid'⟩ := List.mem_map.mp this
    exact ⟨row', hrow', hid'⟩

theorem assocsValid_saveRun (db : DB) (p : Prompt) (T : List (String × List String))
    (now : String) (hv : assocsValid db) :
    assocsValid (PromptRepository.saveRun db p T now) := by
  unfold PromptRepository.saveRun
  cases hs : PromptRepository.save db p T now with
  | error e => exact hv
  | ok db' => exact assocsValid_save_ok db p T now db' hs hv

theorem assocsValid_importItems (items : List Json) (db : DB) (freshIds : Nat → String)
    (k : Nat) (now : String) (count : Nat) (hv : assocsValid db) :
    assocsValid (importItems db items freshIds k now count).1 := by
  induction items generalizing db k count with
  | nil => exact hv
  | cons item rest ih =>
      have hstep : importItems db (item :: rest) freshIds k now count =
          (match decodeItem item (freshIds k) with
           | Except.error e => (db, Except.error e)
           | Except.ok pt =>
               match PromptRepository.save db pt.1 pt.2 now with
               | Except.error e => (db, Except.error e)
               | Except.ok db' => importItems db' rest freshIds (k + 1) now (count + 1)) := rfl
      rw [hstep]
      split
      · exact hv
      · split
        · exact hv
        · next db' hsave =>
            exact ih db' (k + 1) (count + 1) (assocsValid_save_ok _ _ _ _ _ hsave hv)

/-- C10: after every repository operation — save (committed or rolled
back), delete, duplicate, toggle_favorite, import — every association
row references a prompt id that exists in the prompts relation: delete
removes the prompt's association rows in the same call before removing
the row, and save only attaches association rows to a prompt id it has
just inserted or confirmed present. -/
theorem claim_C10_referential_integrity :
    (∀ db p T now, assocsValid db → assocsValid (PromptRepository.saveRun db p T now)) ∧
    (∀ db pid, assocsValid db → assocsValid (PromptRepository.delete db pid).1) ∧
    (∀ db pid newId now, assocsValid db →
        assocsValid (PromptRepository.duplicate db pid newId now).1) ∧
    (∀ db pid cur, assocsValid db → assocsValid (PromptRepository.toggle_favorite db pid cur)) ∧
    (∀ db parsed freshIds now, assocsValid db →
        assocsValid (import_from_json db parsed freshIds now).1) := by
  have hdel : ∀ db pid, assocsValid db → assocsValid (PromptRepository.delete db pid).1 := by
    intro db pid hv pr hpr
    have hne := List.of_mem_filter hpr
    simp only [bne_iff_ne, ne_eq] at hne
    obtain ⟨row, hrow, hid⟩ := hv pr (List.mem_of_mem_filter hpr)
    refine ⟨row, ?_, hid⟩
    apply List.mem_filter.mpr
    refine ⟨hrow, ?_⟩
    simp [hid, hne]
  refine ⟨fun db p T now => assocsValid_saveRun db p T now, hdel, ?_, ?_, ?_⟩
  · intro db pid newId now hv
    unfold PromptRepository.duplicate
    cases hg : PromptRepository.get_by_id db pid with
    | none => exact hv
    | some original => exact assocsValid_saveRun db _ _ now hv
  · intro db pid cur hv pr hpr
    have hpr' : pr ∈ db.prompt_tags := hpr
    obtain ⟨row, hrow, hid⟩ := hv pr hpr'
    have hids : (PromptRepository.toggle_favorite db pid cur).prompts.map Prompt.id =
        db.prompts.map Prompt.id := by
      unfold PromptRepository.toggle_favorite
      simp only
      rw [List.map_map]
      apply List.map_congr_left
      intro r _
      by_cases h : r.id == pid <;> simp [Function.comp, h]
    have hmem : pr.1 ∈ (PromptRepository.toggle_favorite db pid cur).prompts.map Prompt.id := by
      rw [hids, ← hid]
      exact List.mem_map_of_mem Prompt.id hrow
    obtain ⟨row', hrow', hid'⟩ := List.mem_map.mp hmem
    exact ⟨row', hrow', hid'⟩
  · intro db parsed freshIds now hv
    unfold import_from_json
    cases parsed with
    | error e => exact hv
    | ok j =>
        cases j with
        | arr items => exact assocsValid_importItems items db freshIds 0 now 0 hv
        | obj fields => by_cases hf : fields.isEmpty <;> simp [hf] <;> exact hv
        | str s => by_cases hs : s.isEmpty <;> simp [hs] <;> exact hv
        | null => exact hv
        | bool b => exact hv
        | num n => exact hv

/-- Witness for C10 at a concrete store: a favorite-row database run
through a tag-carrying save keeps referential integrity. -/
theorem claim_C10_witness :
    assocsValid rtDB ∧
    assocsValid (PromptRepository.saveRun rtDB overwriteP
      [("Task Type", ["analysis"])] "2022-01-01 00:00:00 UTC") :=
  ⟨by unfold assocsValid; decide,
   claim_C10_referential_integrity.1 rtDB overwriteP [("Task Type", ["analysis"])]
     "2022-01-01 00:00:00 UTC" (by unfold assocsValid; decide)⟩

/-! ### Tag-directory lemmas -/

theorem keys_appendKnownTag (m : List (String × List String)) (c n : String) :
    (appendKnownTag m c n).map Prod.fst = m.map Prod.fst := by
  induction m with
  | nil => rfl
  | cons cl rest ih =>
      obtain ⟨c₀, ns⟩ := cl
      by_cases h : c₀ = c
      · subst h
        by_cases hn : n ∈ ns <;> simp [appendKnownTag, hn]
      · simp [appendKnownTag, beq_false_of_ne h, ih]

theorem tagsGet_appendKnownTag_ne (m : List (String × List String)) {c c' : String}
    (n : String) (h : c' ≠ c) : tagsGet (appendKnownTag m c n) c' = tagsGet m c' := by
  induction m with
  | nil => rfl
  | cons cl rest ih =>
      obtain ⟨c₀, ns⟩ := cl
      by_cases h0 : c₀ = c
      · subst h0
        by_cases hn : n ∈ ns
        · simp [appendKnownTag, hn]
        · simp [appendKnownTag, hn, tagsGet, List.lookup, beq_false_of_ne h]
      · by_cases h1 : c₀ = c'
        · subst h1
          simp [appendKnownTag, beq_false_of_ne h0, tagsGet, List.lookup]
        · simp only [appendKnownTag, beq_false_of_ne h0, Bool.false_eq_true, if_false]
          simp only [tagsGet, List.lookup, beq_false_of_ne (Ne.symm h1)] at ih ⊢
          exact ih

theorem tagsGet_appendKnownTag_same (m : List (String × List String)) (c n : String) :
    tagsGet (appendKnownTag m c n) c =
      tagsGet m c ++
        (if c ∈ m.map Prod.fst ∧ n ∉ tagsGet m c then [n] else []) := by
  induction m with
  | nil => simp [appendKnownTag, tagsGet]
  | cons cl rest ih =>
      obtain ⟨c₀, ns⟩ := cl
      by_cases h : c₀ = c
      · subst h
        have hget : tagsGet ((c₀, ns) :: rest) c₀ = ns := by simp [tagsGet, List.lookup]
        by_cases hn : n ∈ ns
        · simp [appendKnownTag, hn, hget, tagsGet, List.lookup]
        · simp [appendKnownTag, hn, hget, tagsGet, List.lookup]
      · have hkey : (c ∈ ((c₀, ns) :: rest).map Prod.fst) ↔ c ∈ rest.map Prod.fst := by
          simp [Ne.symm h]
        have hget : ∀ m', tagsGet ((c₀, ns) :: m') c = tagsGet m' c := by
          intro m'
          simp [tagsGet, List.lookup, beq_false_of_ne (fun h' => h h'.symm)]
        simp only [appendKnownTag, beq_false_of_ne h, if_false, Bool.false_eq_true]
        rw [hget (appendKnownTag rest c n), hget rest, ih]
        by_cases hk : c ∈ rest.map Prod.fst ∧ n ∉ tagsGet rest c
        · rw [if_pos hk, if_pos]
          exact ⟨hkey.mpr hk.1, hk.2⟩
        · rw [if_neg hk, if_neg]
          intro hk'
          exact hk ⟨hkey.mp hk'.1, hk'.2⟩

theorem keys_foldl_appendKnownTag (l : List TagRow) (m : List (String × List String)) :
    ((l.foldl (fun m t => appendKnownTag m t.category t.name) m).map Prod.fst) =
      m.map Prod.fst := by
  induction l generalizing m with
  | nil => rfl
  | cons t rest ih => rw [List.foldl_cons, ih, keys_appendKnownTag]

theorem mem_tagsGet_foldl_appendKnownTag (l : List TagRow) (m : List (String × List String))
    (c v : String) :
    v ∈ tagsGet (l.foldl (fun m t => appendKnownTag m t.category t.name) m) c ↔
      v ∈ tagsGet m c ∨ (c ∈ m.map Prod.fst ∧ ∃ t ∈ l, t.category = c ∧ t.name = v) := by
  induction l generalizing m with
  | nil => simp
  | cons t rest ih =>
      rw [List.foldl_cons, ih, keys_appendKnownTag]
      by_cases hc : t.category = c
      · rw [← hc, tagsGet_appendKnownTag_same]
        constructor
        · rintro (hv | h)
          · rw [List.mem_append] at hv
            rcases hv with hv | hv
            · exact Or.inl hv
            · by_cases hcond : t.category ∈ m.map Prod.fst ∧ t.name ∉ tagsGet m t.category
              · rw [if_pos hcond] at hv
                simp only [List.mem_singleton] at hv
                subst hv
                exact Or.inr ⟨hcond.1, t, List.mem_cons_self _ _, rfl, rfl⟩
              · rw [if_neg hcond] at hv
                cases hv
          · exact Or.inr ⟨h.1, h.2.choose, List.mem_cons_of_mem _ h.2.choose_spec.1,
              h.2.choose_spec.2⟩
        · rintro (hv | ⟨hk, t', ht', hcat, hname⟩)
          · exact Or.inl (List.mem_append_left _ hv)
          · rcases List.mem_cons.mp ht' with rfl | ht'
            · subst hname
              by_cases hvm : t'.name ∈ tagsGet m t'.category
              · exact Or.inl (List.mem_append_left _ hvm)
              · rw [if_pos ⟨hk, hvm⟩]
                exact Or.inl (List.mem_append_right _ (List.mem_singleton.mpr rfl))
            · exact Or.inr ⟨hk, t', ht', hcat, hname⟩
      · rw [tagsGet_appendKnownTag_ne m t.name (Ne.symm hc)]
        constructor
        · rintro (hv | ⟨hk, t', ht', hcat, hname⟩)
          · exact Or.inl hv
          · exact Or.inr ⟨hk, t', List.mem_cons_of_mem _ ht', hcat, hname⟩
        · rintro (hv | ⟨hk, t', ht', hcat, hname⟩)
          · exact Or.inl hv
          · rcases List.mem_cons.mp ht' with rfl | ht'
            · exact absurd hcat hc
            · exact Or.inr ⟨hk, t', ht', hcat, hname⟩

theorem tagsGet_foldl_appendKnownTag_prefix (l : List TagRow)
    (m : List (String × List String)) (c : String) :
    ∃ extra, tagsGet (l.foldl (fun m t => appendKnownTag m t.category t.name) m) c =
        tagsGet m c ++ extra ∧
      ∀ v ∈ extra, v ∉ tagsGet m c ∧ ∃ t ∈ l, t.category = c ∧ t.name = v := by
  induction l generalizing m with
  | nil => exact ⟨[], by simp, by simp⟩
  | cons t rest ih =>
      rw [List.foldl_cons]
      obtain ⟨extra₁, heq, hprop⟩ := ih (appendKnownTag m t.category t.name)
      by_cases hc : t.category = c
      · subst hc
        rw [tagsGet_appendKnownTag_same] at heq
        by_cases hcond : t.category ∈ m.map Prod.fst ∧ t.name ∉ tagsGet m t.category
        · rw [if_pos hcond] at heq
          refine ⟨[t.name] ++ extra₁, by rw [heq, List.append_assoc], ?_⟩
          intro v hv
          rcases List.mem_append.mp hv with hv | hv
          · simp only [List.mem_singleton] at hv
            subst hv
            exact ⟨hcond.2, t, List.mem_cons_self _ _, rfl, rfl⟩
          · have := hprop v hv
            rw [tagsGet_appendKnownTag_same, if_pos hcond] at this
            refine ⟨fun hvm => this.1 (List.mem_append_left _ hvm), ?_⟩
            obtain ⟨t', ht', hcat, hname⟩ := this.2
            exact ⟨t', List.mem_cons_of_mem _ ht', hcat, hname⟩
        · rw [if_neg hcond, List.append_nil] at heq
          refine ⟨extra₁, heq, ?_⟩
          intro v hv
          have := hprop v hv
          rw [tagsGet_appendKnownTag_same, if_neg hcond, List.append_nil] at this
          obtain ⟨t', ht', hcat, hname⟩ := this.2
          exact ⟨this.1, t', List.mem_cons_of_mem _ ht', hcat, hname⟩
      · rw [tagsGet_appendKnownTag_ne m t.name (Ne.symm hc)] at heq
        refine ⟨extra₁, heq, ?_⟩
        intro v hv
        have := hprop v hv
        rw [tagsGet_appendKnownTag_ne m t.name (Ne.symm hc)] at this
        obtain ⟨t', ht', hcat, hname⟩ := this.2
        exact ⟨this.1, t', List.mem_cons_of_mem _ ht', hcat, hname⟩

theorem lookup_map_snd (m : List (String × List String))
    (G : String → List String → List String) (c : String) :
    List.lookup c (m.map (fun cl => (cl.1, G cl.1 cl.2))) =
      (List.lookup c m).map (fun v => G c v) := by
  induction m with
  | nil => rfl
  | cons cl rest ih =>
      by_cases h : c = cl.1
      · simp [List.lookup, h]
      · simp [List.lookup, beq_false_of_ne h, ih]

theorem tagsGet_sortStep (m : List (String × List String)) (c : String) :
    tagsGet (m.map (fun cl =>
        if cl.1 == "Complexity" then cl else (cl.1, List.insertionSort strLeR cl.2))) c =
      if c = "Complexity" then tagsGet m c
      else List.insertionSort strLeR (tagsGet m c) := by
  have hf : (fun cl : String × List String =>
      if cl.1 == "Complexity" then cl else (cl.1, List.insertionSort strLeR cl.2)) =
      (fun cl => (cl.1, if cl.1 == "Complexity" then cl.2 else List.insertionSort strLeR cl.2)) := by
    funext cl
    by_cases h : cl.1 == "Complexity" <;> simp [h]
  rw [hf]
  unfold tagsGet
  rw [lookup_map_snd m (fun k v => if k == "Complexity" then v else List.insertionSort strLeR v) c]
  cases hl : List.lookup c m with
  | none =>
      by_cases h : c = "Complexity" <;> simp [h]
  | some l =>
      by_cases h : c = "Complexity"
      · simp [h]
      · simp [h, beq_false_of_ne h]

/-- C8: the effective tag options are the registry's static lists
extended with stored tag values of a known category that were not
already present; every category is returned sorted lexicographically
except `Complexity`, whose registry list is kept as its hand-authored
hierarchical prefix (ad-hoc complexity values only ever append after
it); and a category occurring only in stored tags, absent from the
static registry, is not surfaced at all (the result's category list is
exactly the registry's). -/
theorem claim_C8_tag_directory (db : DB) :
    ((get_all_tags_by_category db).map Prod.fst = TAG_CATEGORIES.map Prod.fst) ∧
    (∀ c, c ≠ "Complexity" →
        List.Sorted strLeR (tagsGet (get_all_tags_by_category db) c) ∧
        (∀ v, v ∈ tagsGet (get_all_tags_by_category db) c ↔
            v ∈ tagsGet TAG_CATEGORIES c ∨
              (c ∈ TAG_CATEGORIES.map Prod.fst ∧
                ∃ t ∈ db.tags, t.category = c ∧ t.name = v))) ∧
    (∃ extra, tagsGet (get_all_tags_by_category db) "Complexity" =
        tagsGet TAG_CATEGORIES "Complexity" ++ extra ∧
        ∀ v ∈ extra, v ∉ tagsGet TAG_CATEGORIES "Complexity" ∧
          ∃ t ∈ db.tags, t.category = "Complexity" ∧ t.name = v) := by
  have hdef : get_all_tags_by_category db =
      ((List.insertionSort (fun a b => strLeR a.name b.name) db.tags).foldl
        (fun m t => appendKnownTag m t.category t.name) TAG_CATEGORIES).map
        (fun cl => if cl.1 == "Complexity" then cl
          else (cl.1, List.insertionSort strLeR cl.2)) := rfl
  have hpermtags : ∀ (P : TagRow → Prop),
      (∃ t ∈ List.insertionSort (fun a b => strLeR a.name b.name) db.tags, P t) ↔
        (∃ t ∈ db.tags, P t) := by
    intro P
    constructor
    · rintro ⟨t, ht, hP⟩
      exact ⟨t, (List.perm_insertionSort _ db.tags).mem_iff.mp ht, hP⟩
    · rintro ⟨t, ht, hP⟩
      exact ⟨t, (List.perm_insertionSort _ db.tags).mem_iff.mpr ht, hP⟩
  refine ⟨?_, ?_, ?_⟩
  · rw [hdef, List.map_map]
    have hcomp : ((fun cl : String × List String => cl.1) ∘
        (fun cl => if cl.1 == "Complexity" then cl
          else (cl.1, List.insertionSort strLeR cl.2))) = Prod.fst := by
      funext cl
      by_cases h : cl.1 == "Complexity" <;> simp [Function.comp, h]
    rw [hcomp, keys_foldl_appendKnownTag]
  · intro c hc
    have hget : tagsGet (get_all_tags_by_category db) c =
        List.insertionSort strLeR
          (tagsGet ((List.insertionSort (fun a b => strLeR a.name b.name) db.tags).foldl
            (fun m t => appendKnownTag m t.category t.name) TAG_CATEGORIES) c) := by
      rw [hdef, tagsGet_sortStep, if_neg hc]
    constructor
    · rw [hget]
      exact List.sorted_insertionSort strLeR _
    · intro v
      rw [hget, (List.perm_insertionSort strLeR _).mem_iff,
        mem_tagsGet_foldl_appendKnownTag]
      constructor
      · rintro (h | ⟨hk, h⟩)
        · exact Or.inl h
        · exact Or.inr ⟨hk, (hpermtags _).mp h⟩
      · rintro (h | ⟨hk, h⟩)
        · exact Or.inl h
        · exact Or.inr ⟨hk, (hpermtags _).mpr h⟩
  · have hget : tagsGet (get_all_tags_by_category db) "Complexity" =
        tagsGet ((List.insertionSort (fun a b => strLeR a.name b.name) db.tags).foldl
          (fun m t => appendKnownTag m t.category t.name) TAG_CATEGORIES) "Complexity" := by
      rw [hdef, tagsGet_sortStep, if_pos rfl]
    obtain ⟨extra, heq, hprop⟩ :=
      tagsGet_foldl_appendKnownTag_prefix
        (List.insertionSort (fun a b => strLeR a.name b.name) db.tags) TAG_CATEGORIES
        "Complexity"
    refine ⟨extra, by rw [hget, heq], ?_⟩
    intro v hv
    obtain ⟨hnm, hex⟩ := hprop v hv
    exact ⟨hnm, (hpermtags _).mp hex⟩

/-- C4: a structurally invalid import document — one on which
`json.loads` raises, represented by an `.error` parse outcome — fails
the whole call with that error before any write: the store is returned
unchanged and no (partial) count is produced.  Parsing happens strictly
before the import loop touches the database. -/
theorem claim_C4_invalid_import_no_writes (db : DB) (e : String)
    (freshIds : Nat → String) (now : String) :
    import_from_json db (Except.error e) freshIds now = (db, Except.error e) := rfl

/-! ### Export/import round trip -/

theorem decodeTags_tagsToJson (m : List (String × List String)) :
    decodeTags (tagsToJson m) = Except.ok m := by
  induction m with
  | nil => rfl
  | cons cl rest ih =>
      obtain ⟨c, ns⟩ := cl
      have hns : (ns.map Json.str).foldr
          (fun v acc2 => do
            let ns ← acc2
            match v with
            | Json.str s => Except.ok (s :: ns)
            | _ => Except.error "tag value is not a string")
          (Except.ok []) = Except.ok ns := by
        induction ns with
        | nil => rfl
        | cons n tl ihn =>
            simp only [List.map_cons, List.foldr_cons]
            rw [ihn]
            rfl
      have hrest : (rest.map (fun cl => (cl.1, Json.arr (cl.2.map Json.str)))).foldr
          (fun cv acc => do
            let rest ← acc
            match cv.2 with
            | Json.arr vs => do
                let names ← vs.foldr
                  (fun v acc2 => do
                    let ns ← acc2
                    match v with
                    | Json.str s => Except.ok (s :: ns)
                    | _ => Except.error "tag value is not a string")
                  (Except.ok [])
                Except.ok ((cv.1, names) :: rest)
            | _ => Except.error "tag category value is not a list")
          (Except.ok []) = Except.ok rest := ih
      show decodeTags (Json.obj (((c, ns) :: rest).map
        (fun cl => (cl.1, Json.arr (cl.2.map Json.str))))) = Except.ok ((c, ns) :: rest)
      unfold decodeTags
      simp only [List.map_cons, List.foldr_cons]
      rw [hrest, hns]
      rfl

theorem decodeItem_promptToJson (p : Prompt) (fresh : String) :
    decodeItem (promptToJson p) fresh = Except.ok ({ p with id := fresh }, p.tags) := by
  unfold decodeItem promptToJson
  simp [List.lookup, getStrField, decodeTags_tagsToJson]
  rfl

theorem flatPairs_tagMapAppend_perm (m : List (String × List String)) (c n : String) :
    (flatPairs (tagMapAppend m c n)).Perm (flatPairs m ++ [(c, n)]) := by
  induction m with
  | nil => simp [tagMapAppend, flatPairs]
  | cons cl rest ih =>
      obtain ⟨c', ns⟩ := cl
      by_cases h : c' = c
      · subst h
        have hred : tagMapAppend ((c', ns) :: rest) c' n = (c', ns ++ [n]) :: rest := by
          simp [tagMapAppend]
        rw [hred, flatPairs_cons, flatPairs_cons]
        simp only [List.map_append, List.map_cons, List.map_nil]
        have h1 : (ns.map (fun n => (c', n)) ++ [(c', n)]) ++ flatPairs rest =
            ns.map (fun n => (c', n)) ++ ([(c', n)] ++ flatPairs rest) := by
          rw [List.append_assoc]
        have h2 : (ns.map (fun n => (c', n)) ++ flatPairs rest) ++ [(c', n)] =
            ns.map (fun n => (c', n)) ++ (flatPairs rest ++ [(c', n)]) := by
          rw [List.append_assoc]
        rw [h1, h2]
        exact List.Perm.append_left _ List.perm_append_comm
      · have hred : tagMapAppend ((c', ns) :: rest) c n = (c', ns) :: tagMapAppend rest c n := by
          simp [tagMapAppend, beq_false_of_ne h]
        rw [hred, flatPairs_cons, flatPairs_cons, List.append_assoc]
        exact List.Perm.append_left _ ih

theorem flatPairs_foldl_tagMapAppend_perm (L : List (String × String))
    (m : List (String × List String)) :
    (flatPairs (L.foldl (fun m cn => tagMapAppend m cn.1 cn.2) m)).Perm (flatPairs m ++ L) := by
  induction L generalizing m with
  | nil => simp
  | cons cn rest ih =>
      rw [List.foldl_cons]
      refine (ih (tagMapAppend m cn.1 cn.2)).trans ?_
      have h1 := flatPairs_tagMapAppend_perm m cn.1 cn.2
      refine (List.Perm.append h1 (List.Perm.refl rest)).trans ?_
      rw [List.append_assoc]
      exact List.Perm.append_left _ (by simp)

theorem flatPairs_buildTagMap_perm (L : List (String × String)) :
    (flatPairs (buildTagMap L)).Perm L := by
  have := flatPairs_foldl_tagMapAppend_perm L []
  simpa [flatPairs] using this

theorem loadTagPairs_nodup (db : DB) (hwf : WF db) (pid : String) :
    (loadTagPairs db pid).Nodup := by
  have h1 : (db.prompt_tags.filter (fun pt => pt.1 == pid)).Nodup :=
    hwf.ptNodup.filter _
  have h2 : ((db.prompt_tags.filter (fun pt => pt.1 == pid)).map Prod.snd).Nodup := by
    refine List.Nodup.map_on ?_ h1
    intro x hx y hy hxy
    have hx1 : x.1 = pid := by simpa using List.of_mem_filter hx
    have hy1 : y.1 = pid := by simpa using List.of_mem_filter hy
    exact Prod.ext (hx1.trans hy1.symm) hxy
  have hshape : loadTagPairs db pid =
      ((db.prompt_tags.filter (fun pt => pt.1 == pid)).map Prod.snd).filterMap
        (fun tid => (db.tags.find? (fun t => t.id == tid)).map
          (fun t => (t.category, t.name))) := by
    unfold loadTagPairs
    rw [List.filterMap_map]
    rfl
  rw [hshape]
  refine List.Nodup.filterMap ?_ h2
  intro tid tid' b hb hb'
  rw [Option.mem_def, Option.map_eq_some'] at hb hb'
  obtain ⟨row, hrow, hrowb⟩ := hb
  obtain ⟨row', hrow', hrowb'⟩ := hb'
  have hmem : row ∈ db.tags := List.mem_of_find?_eq_some hrow
  have hmem' : row' ∈ db.tags := List.mem_of_find?_eq_some hrow'
  have hpair : (fun t : TagRow => (t.name, t.category)) row =
      (fun t : TagRow => (t.name, t.category)) row' := by
    have : (row.category, row.name) = (row'.category, row'.name) := hrowb.trans hrowb'.symm
    rw [Prod.mk.injEq] at this
    simp [this.1, this.2]
  have hrr : row = row' :=
    List.inj_on_of_nodup_map hwf.tagPairsNodup hmem hmem' hpair
  have hid : row.id = tid := by simpa using List.find?_some hrow
  have hid' : row'.id = tid' := by simpa using List.find?_some hrow'
  rw [← hid, ← hid', hrr]

theorem flatPairs_loadTags_nodup (db : DB) (hwf : WF db) (pid : String) :
    (flatPairs (loadTags db pid)).Nodup :=
  ((flatPairs_buildTagMap_perm (loadTagPairs db pid)).nodup_iff).mpr
    (loadTagPairs_nodup db hwf pid)

/-- Every prompt returned by `get_all` has a well-shaped tags dict:
distinct flattened pairs, distinct category keys, no empty value list,
and flatten-then-rebuild is the identity. -/
theorem get_all_tags_props (db : DB) (hwf : WF db) :
    ∀ p ∈ PromptRepository.get_all db,
      (flatPairs p.tags).Nodup ∧ buildTagMap (flatPairs p.tags) = p.tags := by
  intro p hp
  unfold PromptRepository.get_all at hp
  rw [List.mem_map] at hp
  obtain ⟨row, _, rfl⟩ := hp
  constructor
  · exact flatPairs_loadTags_nodup db hwf row.id
  · show buildTagMap (flatPairs (loadTags db row.id)) = loadTags db row.id
    unfold loadTags
    exact buildTagMap_flatPairs _ (keysNodup_buildTagMap _) (valsNe_buildTagMap _)

theorem insertRow_with_tags (p : Prompt) (fresh now : String) :
    { (PromptRepository.insertRow { p with id := fresh } now) with tags := p.tags } =
      { p with id := fresh, is_favorite := 0, created_at := now, last_modified := now } := rfl

theorem find?_id_eq_none_iff (l : List Prompt) (x : String) :
    l.find? (fun r => r.id == x) = none ↔ x ∉ l.map Prompt.id := by
  rw [List.find?_eq_none]
  constructor
  · intro h hmem
    obtain ⟨row, hrow, hid⟩ := List.mem_map.mp hmem
    exact h row hrow (by simp [hid])
  · intro h row hrow hbeq
    have : row.id = x := by simpa using hbeq
    exact h (this ▸ List.mem_map_of_mem Prompt.id hrow)

namespace PromptRepository

/-- A `save` of a fresh id (the import path): it succeeds, the new
record loads back with the given tag map, every other id's load is
untouched, and the stored id list grows by exactly the new id. -/
theorem save_insert_get (db : DB) (p : Prompt) (now : String)
    (hwf : WF db) (hnodup : (flatPairs p.tags).Nodup)
    (hround : buildTagMap (flatPairs p.tags) = p.tags)
    (hfresh : p.id ∉ db.prompts.map Prompt.id) :
    ∃ db', save db p p.tags now = Except.ok db' ∧ WF db' ∧
      get_by_id db' p.id = some { insertRow p now with tags := p.tags } ∧
      (∀ x, x ≠ p.id → get_by_id db' x = get_by_id db x) ∧
      db'.prompts.map Prompt.id = db.prompts.map Prompt.id ++ [p.id] := by
  have hnone : db.prompts.find? (fun r => r.id == p.id) = none :=
    (find?_id_eq_none_iff db.prompts p.id).mpr hfresh
  obtain ⟨db', hok, hwf', hload', hframe', hsup', hup, hins, hfr, hsub, hmem, hdicho⟩ :=
    save_spec db p p.tags now hwf hnodup
  have hids : db'.prompts.map Prompt.id = db.prompts.map Prompt.id ++ [p.id] := by
    rcases hdicho with h | h
    · exact absurd (h ▸ hmem) hfresh
    · exact h
  refine ⟨db', hok, hwf', ?_, ?_, hids⟩
  · unfold get_by_id
    rw [hins hnone, Option.map_some']
    show some { insertRow p now with tags := loadTags db' (insertRow p now).id } = _
    rw [insertRow_id]
    unfold loadTags
    rw [hload', hround]
  · intro x hx
    unfold get_by_id
    rw [hfr x hx]
    cases hfind : db.prompts.find? (fun r => r.id == x) with
    | none => rfl
    | some row =>
        have hrid : row.id = x := by simpa using List.find?_some hfind
        simp only [Option.map_some']
        have : loadTags db' row.id = loadTags db row.id := by
          unfold loadTags
          rw [hframe' row.id (by rw [hrid]; exact hx)]
        rw [this]

end PromptRepository

/-- The import loop on an exported prompt list: every item decodes,
each save succeeds on its fresh id, the count is the number of items,
each imported record loads back as the original with the fresh id and
server-reset `is_favorite`/timestamps, and ids outside the fresh
supply load unchanged. -/
theorem importItems_spec (ps : List Prompt) (db : DB) (freshIds : Nat → String) (k : Nat)
    (now : String) (count : Nat) (hwf : WF db)
    (hps : ∀ p ∈ ps, (flatPairs p.tags).Nodup ∧ buildTagMap (flatPairs p.tags) = p.tags)
    (hfresh : ∀ j, k ≤ j → freshIds j ∉ db.prompts.map Prompt.id)
    (hdistinct : ∀ i j, i ≠ j → freshIds i ≠ freshIds j) :
    ∃ dbfin, importItems db (ps.map promptToJson) freshIds k now count =
        (dbfin, Except.ok (count + ps.length)) ∧
      (∀ j (hj : j < ps.length),
        PromptRepository.get_by_id dbfin (freshIds (k + j)) =
          some (importedAs (ps.get ⟨j, hj⟩) (freshIds (k + j)) now)) ∧
      (∀ x, (∀ j, k ≤ j → x ≠ freshIds j) →
        PromptRepository.get_by_id dbfin x = PromptRepository.get_by_id db x) := by
  induction ps generalizing db k count with
  | nil =>
      refine ⟨db, by simp [importItems], ?_, fun x _ => rfl⟩
      intro j hj
      exact absurd hj (Nat.not_lt_zero j)
  | cons p rest ih =>
      set p' : Prompt := { p with id := freshIds k } with hp'
      have hnodup' : (flatPairs p'.tags).Nodup := (hps p (List.mem_cons_self _ _)).1
      have hround' : buildTagMap (flatPairs p'.tags) = p'.tags :=
        (hps p (List.mem_cons_self _ _)).2
      have hfresh' : p'.id ∉ db.prompts.map Prompt.id := hfresh k (Nat.le_refl k)
      obtain ⟨db₁, hok, hwf₁, hget₁, hframe₁, hids₁⟩ :=
        PromptRepository.save_insert_get db p' now hwf hnodup' hround' hfresh'
      have hstep : importItems db ((p :: rest).map promptToJson) freshIds k now count =
          importItems db₁ (rest.map promptToJson) freshIds (k + 1) now (count + 1) := by
        show (match decodeItem (promptToJson p) (freshIds k) with
              | Except.error e => (db, Except.error e)
              | Except.ok pt =>
                  match PromptRepository.save db pt.1 pt.2 now with
                  | Except.error e => (db, Except.error e)
                  | Except.ok db' =>
                      importItems db' (rest.map promptToJson) freshIds (k + 1) now (count + 1)) =
            _
        rw [decodeItem_promptToJson]
        show (match PromptRepository.save db p' p.tags now with
              | Except.error e => (db, Except.error e)
              | Except.ok db' =>
                  importItems db' (rest.map promptToJson) freshIds (k + 1) now (count + 1)) = _
        rw [hok]
      have hfresh₁ : ∀ j, k + 1 ≤ j → freshIds j ∉ db₁.prompts.map Prompt.id := by
        intro j hj
        rw [hids₁]
        intro hmem
        rcases List.mem_append.mp hmem with h | h
        · exact hfresh j (Nat.le_of_succ_le hj) h
        · simp only [List.mem_singleton] at h
          exact hdistinct j k (by omega) h
      obtain ⟨dbfin, heq, hjs, hframe⟩ :=
        ih db₁ (k + 1) (count + 1) hwf₁
          (fun q hq => hps q (List.mem_cons_of_mem _ hq)) hfresh₁
      refine ⟨dbfin, ?_, ?_, ?_⟩
      · rw [hstep, heq]
        have : count + 1 + rest.length = count + (p :: rest).length := by
          simp [List.length_cons]
          omega
        rw [this]
      · intro j hj
        cases j with
        | zero =>
            have hx : ∀ j', k + 1 ≤ j' → freshIds (k + 0) ≠ freshIds j' := by
              intro j' hj'
              exact hdistinct (k + 0) j' (by omega)
            rw [hframe (freshIds (k + 0)) hx]
            simp only [Nat.add_zero]
            rw [hget₁]
            rfl
        | succ m =>
            have hm : m < rest.length := by simpa [List.length_cons] using hj
            have := hjs m hm
            have harith : k + 1 + m = k + (m + 1) := by omega
            rw [harith] at this
            rw [this]
            rfl
      · intro x hx
        have hx1 : ∀ j, k + 1 ≤ j → x ≠ freshIds j := fun j hj => hx j (by omega)
        rw [hframe x hx1]
        exact hframe₁ x (hx k (Nat.le_refl k))

/-- Counterexample to C3 as stated: exporting a catalog whose one
prompt is a favorite created in 2020 and importing the exported
document reproduces the record, but with `is_favorite` reset to 0 and
`created_at` reset to the import time — more than the identifier
differs. -/
theorem claim_C3_counterexample :
    (import_from_json rtDB (Except.ok (export_all rtDB)) freshSupply
        "2025-02-03 04:05:06 UTC").2 = Except.ok 1 ∧
    (PromptRepository.get_by_id
        (import_from_json rtDB (Except.ok (export_all rtDB)) freshSupply
          "2025-02-03 04:05:06 UTC").1 "b").map Prompt.is_favorite = some 0 ∧
    (PromptRepository.get_by_id rtDB "a").map Prompt.is_favorite = some 1 ∧
    (PromptRepository.get_by_id
        (import_from_json rtDB (Except.ok (export_all rtDB)) freshSupply
          "2025-02-03 04:05:06 UTC").1 "b").map Prompt.created_at =
      some "2025-02-03 04:05:06 UTC" ∧
    (PromptRepository.get_by_id rtDB "a").map Prompt.created_at =
      some "2020-01-01 00:00:00 UTC" ∧
    some (0 : Int) ≠ some (1 : Int) := by
  refine ⟨by rfl, ?_, ?_, ?_, ?_, by decide⟩ <;> decide

/-- C3 (amended): exporting the catalog and importing the exported
document succeeds and returns a count equal to the number of exported
records; each imported record carries the same field values as its
original — same title, content fields, metadata and tag map — except
for the freshly generated identifier, the server-reset timestamps
(`created_at`/`last_modified` become the import time), and
`is_favorite`, which the insert path resets to false. -/
theorem claim_C3_roundtrip (db : DB) (freshIds : Nat → String) (now : String)
    (hwf : WF db)
    (hfresh : ∀ j, freshIds j ∉ db.prompts.map Prompt.id)
    (hdistinct : ∀ i j, i ≠ j → freshIds i ≠ freshIds j) :
    ∃ dbfin, import_from_json db (Except.ok (export_all db)) freshIds now =
        (dbfin, Except.ok db.prompts.length) ∧
      ∀ j (hj : j < (PromptRepository.get_all db).length),
        PromptRepository.get_by_id dbfin (freshIds j) =
          some (importedAs ((PromptRepository.get_all db).get ⟨j, hj⟩) (freshIds j) now) := by
  have hlen : (PromptRepository.get_all db).length = db.prompts.length := by
    unfold PromptRepository.get_all
    rw [List.length_map]
    exact (List.perm_insertionSort _ db.prompts).length_eq
  have hdef : import_from_json db (Except.ok (export_all db)) freshIds now =
      importItems db ((PromptRepository.get_all db).map promptToJson) freshIds 0 now 0 := rfl
  obtain ⟨dbfin, heq, hjs, _⟩ :=
    importItems_spec (PromptRepository.get_all db) db freshIds 0 now 0 hwf
      (get_all_tags_props db hwf) (fun j _ => hfresh j) hdistinct
  refine ⟨dbfin, ?_, ?_⟩
  · rw [hdef, heq, Nat.zero_add, hlen]
  · intro j hj
    have := hjs j hj
    rw [Nat.zero_add] at this
    exact this

/-- Witness for the amended C3 at the one-favorite-prompt store with an
injective fresh-id supply. -/
theorem claim_C3_witness :
    WF rtDB ∧
    (∀ j, freshSupply j ∉ rtDB.prompts.map Prompt.id) ∧
    (∀ i j, i ≠ j → freshSupply i ≠ freshSupply j) ∧
    (∃ dbfin, import_from_json rtDB (Except.ok (export_all rtDB)) freshSupply
        "2025-02-03 04:05:06 UTC" = (dbfin, Except.ok rtDB.prompts.length) ∧
      ∀ j (hj : j < (PromptRepository.get_all rtDB).length),
        PromptRepository.get_by_id dbfin (freshSupply j) =
          some (importedAs ((PromptRepository.get_all rtDB).get ⟨j, hj⟩) (freshSupply j)
            "2025-02-03 04:05:06 UTC")) := by
  have hfresh : ∀ j, freshSupply j ∉ rtDB.prompts.map Prompt.id := by
    intro j hmem
    have heq : freshSupply j = "a" := by simpa [rtDB] using hmem
    have hdata := congrArg String.data heq
    simp only [freshSupply] at hdata
    have hlen := congrArg List.length hdata
    simp at hlen
    subst hlen
    exact absurd hdata (by decide)
  have hdistinct : ∀ i j, i ≠ j → freshSupply i ≠ freshSupply j := by
    intro i j hij hc
    have hdata := congrArg String.data hc
    simp only [freshSupply] at hdata
    have hlen := congrArg List.length hdata
    simp at hlen
    exact hij hlen
  exact ⟨⟨by decide, by decide, by decide, by decide, by decide, by decide⟩, hfresh, hdistinct,
    claim_C3_roundtrip rtDB freshSupply "2025-02-03 04:05:06 UTC"
      ⟨by decide, by decide, by decide, by decide, by decide, by decide⟩ hfresh hdistinct⟩
